import Mathlib

/-!
# Verification of the calc-pro expression engine against its specification

This file gives a shallow embedding of the `CalculatorEngine` class of
`src/Calc_Pro.py` and settles the specification claims about it.

The engine evaluates a user expression string by handing it, after a glyph
substitution, to the host language's expression evaluator (`eval`) with a
restricted environment of math functions and constants.  The embedding
therefore models three things, each translated from the source:

* the glyph substitution of `CalculatorEngine.evaluate` (`×`, `÷`, `^`, `√`);
* the host language's tokenizer and expression grammar, restricted to the
  fragment a calculator input can reach: number literals, identifiers,
  `+ - * / % **`, parentheses, commas and whitespace (numbers as in the host:
  digits with an optional decimal point, and integer literals must not carry
  a superfluous leading zero).  Characters and literal forms outside this
  fragment (exponent-suffix floats such as `1e5`, hex literals, comparison
  and bitwise operators, comments) are outside the model and are mapped to a
  lexical error; no theorem below quantifies over such inputs except through
  hypotheses that exclude them;
* the evaluation of the resulting tree under the source's environment
  (`sqrt abs fact log ln exp sin cos tan asin acos atan pi e`).

Numbers: the host's IEEE-754 doubles are idealised as exact rationals (no
rounding, no overflow, no signed zero).  A computation whose exact value is
irrational, complex, or otherwise not representable in this exact model
(a transcendental function value, a power with a fractional exponent, a
function object used as a value) is mapped to a distinguished `unmodeled`
outcome, surfaced as `none`; it is a successful computation of the code whose
display string is outside the exact model, never an error of the code.  A
second, noncomputable evaluator over `ℝ`/`ℂ` covers the trigonometric and
complex-power claims exactly.
-/

set_option maxHeartbeats 1000000

namespace CalcPro

/-! ## Decimal rendering helpers -/

/-- One decimal digit as a character. -/
def digitChar (n : ℕ) : Char := Char.ofNat (48 + n % 10)

/-- Decimal digits of `n`, most significant first; `[]` for `0`.
Fuel-based so that it reduces in the kernel. -/
def natDigitsAux : ℕ → ℕ → List Char
  | 0, _ => []
  | _ + 1, 0 => []
  | fuel + 1, n => natDigitsAux fuel (n / 10) ++ [digitChar (n % 10)]

/-- Decimal digit characters of `n`, most significant first, nonempty. -/
def natDigits (n : ℕ) : List Char :=
  if n = 0 then ['0'] else natDigitsAux (n + 1) n

/-- Decimal string of a natural number. -/
def natToStr (n : ℕ) : String := String.mk (natDigits n)

/-- Decimal string of an integer: models the host's `str` on `int`. -/
def intToStr (n : ℤ) : String :=
  (if n < 0 then "-" else "") ++ natToStr n.natAbs

/-- Drop trailing `'0'` characters (used when rendering `%.10g`). -/
def stripZeros (ds : List Char) : List Char :=
  (ds.reverse.dropWhile (fun c => c = '0')).reverse

/-! ## The `%.10g` float format

`CalculatorEngine.evaluate` renders a float result with `f"{result:.10g}"`:
round to 10 significant decimal digits, drop insignificant trailing zeros,
and use scientific notation exactly when the decimal exponent is below `-4`
or at least `10`.  Over the exact rational model the rounding of the ideal
value replaces the rounding of the stored double; ties round to even. -/

/-- Decimal exponent search, upward: for `1 ≤ q`, the `e ≥ 0` with
`10^e ≤ q < 10^(e+1)` (given enough fuel). -/
def qExpUp : ℕ → ℚ → ℤ → ℤ
  | 0, _, acc => acc
  | fuel + 1, q, acc => if q < 10 then acc else qExpUp fuel (q / 10) (acc + 1)

/-- Decimal exponent search, downward: for `0 < q < 1`, the `e < 0` with
`10^e ≤ q < 10^(e+1)` (given enough fuel). -/
def qExpDown : ℕ → ℚ → ℤ → ℤ
  | 0, _, acc => acc
  | fuel + 1, q, acc =>
    let q10 := q * 10
    if 1 ≤ q10 then acc - 1 else qExpDown fuel q10 (acc - 1)

/-- Decimal exponent of a positive rational. -/
def qExp10 (q : ℚ) : ℤ :=
  if 1 ≤ q then qExpUp (q.num.natAbs + 1) q 0
  else qExpDown (q.den + 1) q 0

/-- Round to the nearest integer, ties to even. -/
def roundHalfEven (x : ℚ) : ℤ :=
  let f := ⌊x⌋
  let r := x - (f : ℚ)
  if r < 1 / 2 then f
  else if 1 / 2 < r then f + 1
  else if f % 2 = 0 then f else f + 1

/-- Minimum-two-digit exponent field of scientific notation. -/
def expField (e : ℤ) : List Char :=
  (if e < 0 then ['-'] else ['+']) ++
    (let ds := natDigits e.natAbs
     if ds.length < 2 then '0' :: ds else ds)

/-- Body of `%.10g` for a positive rational: 10 significant digits
`m` (`10^9 ≤ m < 10^10`) at decimal exponent `e`. -/
def g10Body (m : ℤ) (e : ℤ) : List Char :=
  let ds := natDigits m.toNat
  if -4 ≤ e ∧ e < 10 then
    if 0 ≤ e then
      let ip := ds.take (e.toNat + 1)
      let fp := stripZeros (ds.drop (e.toNat + 1))
      ip ++ (if fp = [] then [] else '.' :: fp)
    else
      '0' :: '.' :: (List.replicate (-e - 1).toNat '0' ++ stripZeros ds)
  else
    let tl := stripZeros ds.tail
    ds.take 1 ++ (if tl = [] then [] else '.' :: tl) ++ 'e' :: expField e

/-- The host's `%.10g` format on the exact rational model. -/
def fmtG10 (q : ℚ) : String :=
  if q = 0 then "0"
  else
    let a := |q|
    let e := qExp10 a
    let m := roundHalfEven (a * (10 : ℚ) ^ ((9 : ℤ) - e))
    let body := if m = 10 ^ 10 then g10Body (10 ^ 9) (e + 1) else g10Body m e
    String.mk ((if q < 0 then ['-'] else []) ++ body)

/-! ## Glyph substitution

`evaluate` first rewrites display glyphs into host operators:
`expression.replace('×','*').replace('÷','/').replace('^','**').replace('√','sqrt')`.
Each pattern is a single character and no replacement text contains a later
pattern, so the chained substring replacement acts character by character. -/

/-- Replacement text of one character under the glyph substitution. -/
def glyphSub (c : Char) : List Char :=
  if c = '×' then ['*']
  else if c = '÷' then ['/']
  else if c = '^' then ['*', '*']
  else if c = '√' then ['s', 'q', 'r', 't']
  else [c]

/-- The glyph-substituted character stream of an input string. -/
def cleanChars (s : String) : List Char := (s.data.map glyphSub).flatten

/-! ## Tokens and the host tokenizer -/

/-- A token of the host expression fragment.  A number token records whether
the literal had a decimal point (the host's `int` / `float` distinction)
together with its exact value. -/
inductive Tok where
  | num (isFloat : Bool) (q : ℚ)
  | name (s : String)
  | plus | minus | star | slash | percent | pow
  | lparen | rparen | comma
deriving DecidableEq, Repr

/-- Lexical failures.  `badChar` models the host's refusal of a character
that cannot start a token here; `badNum` its refusal of a malformed number
literal (a lone `.`, or an integer literal with a superfluous leading zero);
`fuel` is the out-of-fuel marker of the bounded recursion, unreachable from
the fuel supplied by `lexPy`. -/
inductive LexErr where
  | badChar (c : Char)
  | badNum
  | fuel
deriving DecidableEq, Repr

/-- Numeric value of a digit character. -/
def digitVal (c : Char) : ℕ := c.toNat - 48

/-- Value of a digit run. -/
def digitsVal (ds : List Char) : ℕ := ds.foldl (fun a c => a * 10 + digitVal c) 0

/-- Is this character a decimal digit? -/
def isDig (c : Char) : Bool := c.isDigit

/-- Is this character an ASCII letter? -/
def isLetter (c : Char) : Bool := c.isAlpha

/-- An integer literal may start with `'0'` only if it is all zeros
(the host rejects `01` but accepts `0`, `00` and `0` before a point). -/
def okIntLit (ds : List Char) : Bool :=
  match ds with
  | [] => false
  | '0' :: rest => rest.all (fun c => c = '0')
  | _ => true

/-- Scan one number literal: digits, optionally a point and more digits.
Returns the token and the unconsumed rest.  Mirrors the host's
`decinteger` / `pointfloat` forms (exponent-suffix floats are outside the
modeled fragment). -/
def lexNum (cs : List Char) : Except LexErr (Tok × List Char) :=
  let ip := cs.takeWhile isDig
  let r1 := cs.dropWhile isDig
  match r1 with
  | '.' :: r2 =>
    let fp := r2.takeWhile isDig
    let r3 := r2.dropWhile isDig
    if ip = [] ∧ fp = [] then .error .badNum
    else
      .ok (.num true ((digitsVal ip : ℚ) + (digitsVal fp : ℚ) / 10 ^ fp.length), r3)
  | _ =>
    if okIntLit ip then .ok (.num false (digitsVal ip : ℚ), r1)
    else .error .badNum

/-- The tokenizer of the host expression fragment.  Identifiers are maximal
letter runs; `**` lexes as the power operator (the glyph substitution has
already rewritten `^` to `**`); spaces and tabs are skipped; any other
character is refused. -/
def lexLoop : ℕ → List Char → Except LexErr (List Tok)
  | 0, _ => .error .fuel
  | _ + 1, [] => .ok []
  | fuel + 1, c :: cs =>
    if c = ' ' ∨ c = '\t' then lexLoop fuel cs
    else if isDig c ∨ c = '.' then
      match lexNum (c :: cs) with
      | .error e => .error e
      | .ok (t, rest) =>
        match lexLoop fuel rest with
        | .error e => .error e
        | .ok ts => .ok (t :: ts)
    else if isLetter c then
      let id := (c :: cs).takeWhile isLetter
      match lexLoop fuel ((c :: cs).dropWhile isLetter) with
      | .error e => .error e
      | .ok ts => .ok (.name (String.mk id) :: ts)
    else if c = '*' then
      if cs.head? = some '*' then
        match lexLoop fuel cs.tail with
        | .error e => .error e
        | .ok ts => .ok (.pow :: ts)
      else
        match lexLoop fuel cs with
        | .error e => .error e
        | .ok ts => .ok (.star :: ts)
    else
      let tok? : Option Tok :=
        if c = '+' then some .plus
        else if c = '-' then some .minus
        else if c = '/' then some .slash
        else if c = '%' then some .percent
        else if c = '(' then some .lparen
        else if c = ')' then some .rparen
        else if c = ',' then some .comma
        else none
      match tok? with
      | none => .error (.badChar c)
      | some t =>
        match lexLoop fuel cs with
        | .error e => .error e
        | .ok ts => .ok (t :: ts)

/-- Tokenize a glyph-substituted character stream. -/
def lexPy (cs : List Char) : Except LexErr (List Tok) :=
  lexLoop (cs.length + 1) cs

/-! ### The specification's tokenizer

Section 4.1 prescribes numbers as "one or more digits, optional single
decimal point" — so a leading digit is required, arbitrary leading zeros
are allowed, and there is no `%` among the accepted characters.  Everything
else (identifiers as maximal letter runs, the operator and bracket tokens,
skipped whitespace) coincides with the host tokenizer.  This tokenizer
follows the specification's words; it is the comparison point for the
refinement claim, not a translation of the source. -/

/-- Scan one number literal by the specification's rule. -/
def specLexNum (cs : List Char) : Except LexErr (Tok × List Char) :=
  let ip := cs.takeWhile isDig
  if ip = [] then .error .badNum
  else
    let r1 := cs.dropWhile isDig
    match r1 with
    | '.' :: r2 =>
      let fp := r2.takeWhile isDig
      let r3 := r2.dropWhile isDig
      .ok (.num true ((digitsVal ip : ℚ) + (digitsVal fp : ℚ) / 10 ^ fp.length), r3)
    | _ => .ok (.num false (digitsVal ip : ℚ), r1)

/-- The specification's tokenizer loop. -/
def specLexLoop : ℕ → List Char → Except LexErr (List Tok)
  | 0, _ => .error .fuel
  | _ + 1, [] => .ok []
  | fuel + 1, c :: cs =>
    if c = ' ' ∨ c = '\t' then specLexLoop fuel cs
    else if isDig c then
      match specLexNum (c :: cs) with
      | .error e => .error e
      | .ok (t, rest) =>
        match specLexLoop fuel rest with
        | .error e => .error e
        | .ok ts => .ok (t :: ts)
    else if isLetter c then
      let id := (c :: cs).takeWhile isLetter
      match specLexLoop fuel ((c :: cs).dropWhile isLetter) with
      | .error e => .error e
      | .ok ts => .ok (.name (String.mk id) :: ts)
    else if c = '*' then
      if cs.head? = some '*' then
        match specLexLoop fuel cs.tail with
        | .error e => .error e
        | .ok ts => .ok (.pow :: ts)
      else
        match specLexLoop fuel cs with
        | .error e => .error e
        | .ok ts => .ok (.star :: ts)
    else
      let tok? : Option Tok :=
        if c = '+' then some .plus
        else if c = '-' then some .minus
        else if c = '/' then some .slash
        else if c = '(' then some .lparen
        else if c = ')' then some .rparen
        else if c = ',' then some .comma
        else none
      match tok? with
      | none => .error (.badChar c)
      | some t =>
        match specLexLoop fuel cs with
        | .error e => .error e
        | .ok ts => .ok (t :: ts)

/-- Tokenize by the specification's rules. -/
def lexSpec (cs : List Char) : Except LexErr (List Tok) :=
  specLexLoop (cs.length + 1) cs

/-! ## Syntax trees -/

/-- The abstract syntax of the expression fragment.  `call` keeps the callee
as a tree because the host grammar allows any primary to be called; the
environment's functions only ever appear as `call (name f) args`. -/
inductive Ast where
  | num (isFloat : Bool) (q : ℚ)
  | name (s : String)
  | neg (a : Ast)
  | uplus (a : Ast)
  | add (a b : Ast)
  | sub (a b : Ast)
  | mul (a b : Ast)
  | div (a b : Ast)
  | mod (a b : Ast)
  | pow (a b : Ast)
  | call (f : Ast) (args : List Ast)
deriving Repr

/-- Parse failures, following the specification's taxonomy
(`UnexpectedToken`, `UnknownFunction`, `ArityMismatch`, `UnbalancedParens`);
`fuel` is the out-of-fuel marker of the bounded recursion. -/
inductive ParseErr where
  | unexpectedTok
  | unknownFunc (s : String)
  | arityMismatch
  | unbalanced
  | fuel
deriving DecidableEq, Repr

/-- Result of a sub-parser: a tree and the unconsumed tokens. -/
abbrev PRes := Except ParseErr (Ast × List Tok)

/-! ## The host expression grammar

`evaluate` hands the cleaned string to the host's `eval`; parsing therefore
follows the host expression grammar on this fragment:

    a_expr  := m_expr (("+" | "-") m_expr)*
    m_expr  := u_expr (("*" | "/" | "%") u_expr)*
    u_expr  := "-" u_expr | "+" u_expr | power
    power   := primary ["**" u_expr]
    primary := atom trailer*          trailer := "(" [args] ")"
    atom    := NUMBER | NAME | "(" a_expr ")"

All parsers take explicit fuel; every nested call burns exactly one unit,
and the fuel supplied by `pyParse` is large enough that the `fuel` error is
unreachable.  A loop that consumes nothing burns nothing. -/

mutual

/-- `primary`: an atom followed by call trailers (the trailer check is
inlined at each producer so that every recursive call strictly decreases
the fuel). -/
def pyPrimary : ℕ → List Tok → PRes
  | 0, _ => .error .fuel
  | f + 1, toks =>
    match toks with
    | .num b q :: rest =>
      if rest.head? = some .lparen then pyTrailerStep f (.num b q) rest.tail
      else .ok (.num b q, rest)
    | .name s :: rest =>
      if rest.head? = some .lparen then pyTrailerStep f (.name s) rest.tail
      else .ok (.name s, rest)
    | .lparen :: rest =>
      match pyExpr f rest with
      | .error e => .error e
      | .ok (a, rest2) =>
        if rest2.head? = some .rparen then
          if rest2.tail.head? = some .lparen then
            pyTrailerStep f a rest2.tail.tail
          else .ok (a, rest2.tail)
        else .error .unbalanced
    | _ => .error .unexpectedTok

/-- One consumed call trailer `( ... )`, the `(` already consumed, then
any further trailers. -/
def pyTrailerStep : ℕ → Ast → List Tok → PRes
  | 0, _, _ => .error .fuel
  | f + 1, a, rest =>
    if rest.head? = some .rparen then
      if rest.tail.head? = some .lparen then
        pyTrailerStep f (.call a []) rest.tail.tail
      else .ok (.call a [], rest.tail)
    else
      match pyArgs f rest with
      | .error e => .error e
      | .ok (args, rest2) =>
        if rest2.head? = some .rparen then
          if rest2.tail.head? = some .lparen then
            pyTrailerStep f (.call a args) rest2.tail.tail
          else .ok (.call a args, rest2.tail)
        else .error .unbalanced

/-- Call arguments: expressions separated by commas, an optional trailing
comma before the closing parenthesis. -/
def pyArgs : ℕ → List Tok → Except ParseErr (List Ast × List Tok)
  | 0, _ => .error .fuel
  | f + 1, toks =>
    match pyExpr f toks with
    | .error e => .error e
    | .ok (a, rest) =>
      if rest.head? = some .comma then
        if rest.tail.head? = some .rparen then .ok ([a], rest.tail)
        else
          match pyArgs f rest.tail with
          | .error e => .error e
          | .ok (as, rest2) => .ok (a :: as, rest2)
      else .ok ([a], rest)

/-- `power`: a primary with an optional right-hand `**` exponent, itself a
unary expression. -/
def pyPower : ℕ → List Tok → PRes
  | 0, _ => .error .fuel
  | f + 1, toks =>
    match pyPrimary f toks with
    | .error e => .error e
    | .ok (p, rest) =>
      if rest.head? = some .pow then pyPowExp f p rest.tail
      else .ok (p, rest)

/-- The consumed `**` exponent of a `power`. -/
def pyPowExp : ℕ → Ast → List Tok → PRes
  | 0, _, _ => .error .fuel
  | f + 1, p, rest =>
    match pyUnary f rest with
    | .error e => .error e
    | .ok (b, rest2) => .ok (.pow p b, rest2)

/-- `u_expr`: unary minus and plus. -/
def pyUnary : ℕ → List Tok → PRes
  | 0, _ => .error .fuel
  | f + 1, toks =>
    match toks with
    | .minus :: rest =>
      match pyUnary f rest with
      | .error e => .error e
      | .ok (a, rest2) => .ok (.neg a, rest2)
    | .plus :: rest =>
      match pyUnary f rest with
      | .error e => .error e
      | .ok (a, rest2) => .ok (.uplus a, rest2)
    | _ => pyPower f toks

/-- One consumed `m_expr` operator and operand, then the rest of the
left-associative loop. -/
def pyMulStep : ℕ → Ast → List Tok → PRes
  | 0, _, _ => .error .fuel
  | f + 1, acc, toks =>
    match pyUnary f toks.tail with
    | .error e => .error e
    | .ok (b, rest2) =>
      let acc2 := if toks.head? = some .star then Ast.mul acc b
        else if toks.head? = some .slash then Ast.div acc b
        else Ast.mod acc b
      if rest2.head? = some .star ∨ rest2.head? = some .slash ∨
          rest2.head? = some .percent then pyMulStep f acc2 rest2
      else .ok (acc2, rest2)

/-- `m_expr`. -/
def pyTerm : ℕ → List Tok → PRes
  | 0, _ => .error .fuel
  | f + 1, toks =>
    match pyUnary f toks with
    | .error e => .error e
    | .ok (a, rest) =>
      if rest.head? = some .star ∨ rest.head? = some .slash ∨
          rest.head? = some .percent then pyMulStep f a rest
      else .ok (a, rest)

/-- One consumed `a_expr` operator and operand, then the rest of the
left-associative loop. -/
def pyAddStep : ℕ → Ast → List Tok → PRes
  | 0, _, _ => .error .fuel
  | f + 1, acc, toks =>
    match pyTerm f toks.tail with
    | .error e => .error e
    | .ok (b, rest2) =>
      let acc2 := if toks.head? = some .plus then Ast.add acc b
        else Ast.sub acc b
      if rest2.head? = some .plus ∨ rest2.head? = some .minus then
        pyAddStep f acc2 rest2
      else .ok (acc2, rest2)

/-- `a_expr`. -/
def pyExpr : ℕ → List Tok → PRes
  | 0, _ => .error .fuel
  | f + 1, toks =>
    match pyTerm f toks with
    | .error e => .error e
    | .ok (a, rest) =>
      if rest.head? = some .plus ∨ rest.head? = some .minus then
        pyAddStep f a rest
      else .ok (a, rest)

end

/-- Fuel that the nesting of a token list can never exhaust. -/
def parseFuel (ts : List Tok) : ℕ := 8 * ts.length + 10

/-- Parse a complete expression in the host grammar: every token must be
consumed (`eval` compiles the whole string). -/
def pyParse (ts : List Tok) : Except ParseErr Ast :=
  match pyExpr (parseFuel ts) ts with
  | .error e => .error e
  | .ok (a, []) => .ok a
  | .ok (_, _ :: _) => .error .unexpectedTok

/-! ## The specification grammar

Section 4.2 of the specification prescribes

    primary := NUMBER | CONST | FUNC "(" expr ("," expr)* ")"
             | "(" expr ")" | "-" unary
    power   := primary ("^" unary)*        -- right-associative
    unary   := "-" unary | power
    term    := unary (("*" | "/") unary)*  -- left-associative
    expr    := term (("+" | "-") term)*    -- left-associative

with constant and function names checked at parse time
(`UnknownFunction`), unary arity checked at parse time (`ArityMismatch`),
and the same token stream.  These parsers follow the specification's words;
they are the comparison point for the refinement claim about `evaluate`,
not a translation of the source. -/

/-- The built-in function names of the environment (specification §4.3). -/
def funcNames : List String :=
  ["sqrt", "abs", "fact", "log", "ln", "exp",
   "sin", "cos", "tan", "asin", "acos", "atan"]

/-- The built-in constant names. -/
def constNames : List String := ["pi", "e"]

/-- Right-associated tower of `^` from a base and the exponent list. -/
def buildPowR : Ast → List Ast → Ast
  | p, [] => p
  | p, e :: es => .pow p (buildPowR e es)

mutual

/-- Specification `primary`. -/
def specPrimary : ℕ → List Tok → PRes
  | 0, _ => .error .fuel
  | f + 1, toks =>
    match toks with
    | .num b q :: rest => .ok (.num b q, rest)
    | .name s :: rest =>
      if s ∈ constNames then .ok (.name s, rest)
      else if s ∈ funcNames then
        if rest.head? = some .lparen then specCallArgs f s rest.tail
        else .error .unexpectedTok
      else .error (.unknownFunc s)
    | .lparen :: rest =>
      match specExpr f rest with
      | .error e => .error e
      | .ok (a, rest2) =>
        if rest2.head? = some .rparen then .ok (a, rest2.tail)
        else .error .unbalanced
    | .minus :: rest =>
      match specUnary f rest with
      | .error e => .error e
      | .ok (a, rest2) => .ok (.neg a, rest2)
    | _ => .error .unexpectedTok

/-- The parenthesised argument list of a specification function call, with
the parse-time arity check (`ArityMismatch`). -/
def specCallArgs : ℕ → String → List Tok → PRes
  | 0, _, _ => .error .fuel
  | f + 1, s, rest =>
    match specArgs f rest with
    | .error e => .error e
    | .ok (args, rest2) =>
      if rest2.head? = some .rparen then
        if args.length = 1 then .ok (.call (.name s) args, rest2.tail)
        else .error .arityMismatch
      else .error .unbalanced

/-- Specification argument list: `expr ("," expr)*`. -/
def specArgs : ℕ → List Tok → Except ParseErr (List Ast × List Tok)
  | 0, _ => .error .fuel
  | f + 1, toks =>
    match specExpr f toks with
    | .error e => .error e
    | .ok (a, rest) =>
      if rest.head? = some .comma then
        match specArgs f rest.tail with
        | .error e => .error e
        | .ok (as, rest2) => .ok (a :: as, rest2)
      else .ok ([a], rest)

/-- One consumed `^` and its unary exponent, then the rest of the
`("^" unary)*` tail of a specification `power`. -/
def specPowStep : ℕ → List Tok → Except ParseErr (List Ast × List Tok)
  | 0, _ => .error .fuel
  | f + 1, rest =>
    match specUnary f rest with
    | .error e => .error e
    | .ok (a, rest2) =>
      if rest2.head? = some .pow then
        match specPowStep f rest2.tail with
        | .error e => .error e
        | .ok (as, rest3) => .ok (a :: as, rest3)
      else .ok ([a], rest2)

/-- Specification `power`: right-associative by construction of
`buildPowR`. -/
def specPower : ℕ → List Tok → PRes
  | 0, _ => .error .fuel
  | f + 1, toks =>
    match specPrimary f toks with
    | .error e => .error e
    | .ok (p, rest) =>
      if rest.head? = some .pow then
        match specPowStep f rest.tail with
        | .error e => .error e
        | .ok (es, rest2) => .ok (buildPowR p es, rest2)
      else .ok (p, rest)

/-- Specification `unary`. -/
def specUnary : ℕ → List Tok → PRes
  | 0, _ => .error .fuel
  | f + 1, toks =>
    match toks with
    | .minus :: rest =>
      match specUnary f rest with
      | .error e => .error e
      | .ok (a, rest2) => .ok (.neg a, rest2)
    | _ => specPower f toks

/-- One consumed `term` operator and operand, then the rest of the
left-associative loop. -/
def specTermStep : ℕ → Ast → List Tok → PRes
  | 0, _, _ => .error .fuel
  | f + 1, acc, toks =>
    match specUnary f toks.tail with
    | .error e => .error e
    | .ok (b, rest2) =>
      let acc2 := if toks.head? = some .star then Ast.mul acc b
        else Ast.div acc b
      if rest2.head? = some .star ∨ rest2.head? = some .slash then
        specTermStep f acc2 rest2
      else .ok (acc2, rest2)

/-- Specification `term`. -/
def specTerm : ℕ → List Tok → PRes
  | 0, _ => .error .fuel
  | f + 1, toks =>
    match specUnary f toks with
    | .error e => .error e
    | .ok (a, rest) =>
      if rest.head? = some .star ∨ rest.head? = some .slash then
        specTermStep f a rest
      else .ok (a, rest)

/-- One consumed `expr` operator and operand, then the rest of the
left-associative loop. -/
def specExprStep : ℕ → Ast → List Tok → PRes
  | 0, _, _ => .error .fuel
  | f + 1, acc, toks =>
    match specTerm f toks.tail with
    | .error e => .error e
    | .ok (b, rest2) =>
      let acc2 := if toks.head? = some .plus then Ast.add acc b
        else Ast.sub acc b
      if rest2.head? = some .plus ∨ rest2.head? = some .minus then
        specExprStep f acc2 rest2
      else .ok (acc2, rest2)

/-- Specification `expr`. -/
def specExpr : ℕ → List Tok → PRes
  | 0, _ => .error .fuel
  | f + 1, toks =>
    match specTerm f toks with
    | .error e => .error e
    | .ok (a, rest) =>
      if rest.head? = some .plus ∨ rest.head? = some .minus then
        specExprStep f a rest
      else .ok (a, rest)

end

/-- Parse a complete expression in the specification grammar. -/
def specParse (ts : List Tok) : Except ParseErr Ast :=
  match specExpr (parseFuel ts) ts with
  | .error e => .error e
  | .ok (a, []) => .ok a
  | .ok (_, _ :: _) => .error .unexpectedTok

/-! ## Values and evaluation errors -/

/-- The angle mode of the engine: `self.angle_mode` is `"DEG"` or `"RAD"`,
initially `"DEG"`. -/
inductive AngleMode where
  | deg
  | rad
deriving DecidableEq, Repr

/-- A numeric value of the exact model: a host `int` (exact) or a host
`float` idealised as an exact rational. -/
inductive PyVal where
  | vint (n : ℤ)
  | vfloat (q : ℚ)
deriving DecidableEq, Repr

/-- Run-time failures of the host evaluation: `zeroDiv` is
`ZeroDivisionError` (caught separately by `evaluate`), `domain` a
`ValueError` from a math function, `typeErr` a `TypeError` (bad arity,
calling a non-function, a float where an int is required), `nameErr` a
`NameError` (an identifier missing from the environment). -/
inductive PyErr where
  | zeroDiv
  | domain
  | typeErr
  | nameErr
deriving DecidableEq, Repr

/-- Outcome of evaluating a tree in the exact model.  `unmodeled` marks a
computation that succeeds in the host but whose exact value lies outside
the rational model (an irrational or complex number, or a function object
used as a value); it is never an error of the code. -/
inductive EvalRes where
  | ok (v : PyVal)
  | err (e : PyErr)
  | unmodeled
deriving DecidableEq, Repr

/-- Sequencing on `EvalRes`. -/
def EvalRes.bind : EvalRes → (PyVal → EvalRes) → EvalRes
  | .ok v, f => f v
  | .err e, _ => .err e
  | .unmodeled, _ => .unmodeled

/-- The rational value of a `PyVal`. -/
def PyVal.toQ : PyVal → ℚ
  | .vint n => (n : ℚ)
  | .vfloat q => q

/-- Is this value a host `float`? -/
def PyVal.isFloat : PyVal → Bool
  | .vint _ => false
  | .vfloat _ => true

/-! ## Arithmetic operators

The host's `int ∘ int` stays `int` for `+ - * %` and for `**` with a
nonnegative exponent; division always yields a `float`; any `float` operand
makes the result a `float`.  Division and modulo by an exact zero raise
`ZeroDivisionError`, as does `0 ** negative`.  The host's `%` and the float
`%` follow the floor convention (the sign of the divisor). -/

/-- Addition. -/
def addV : PyVal → PyVal → EvalRes
  | .vint a, .vint b => .ok (.vint (a + b))
  | a, b => .ok (.vfloat (a.toQ + b.toQ))

/-- Subtraction. -/
def subV : PyVal → PyVal → EvalRes
  | .vint a, .vint b => .ok (.vint (a - b))
  | a, b => .ok (.vfloat (a.toQ - b.toQ))

/-- Multiplication. -/
def mulV : PyVal → PyVal → EvalRes
  | .vint a, .vint b => .ok (.vint (a * b))
  | a, b => .ok (.vfloat (a.toQ * b.toQ))

/-- True division: always a float, `ZeroDivisionError` on a zero divisor. -/
def divV (a b : PyVal) : EvalRes :=
  if b.toQ = 0 then .err .zeroDiv else .ok (.vfloat (a.toQ / b.toQ))

/-- Modulo, floor convention; `ZeroDivisionError` on a zero divisor. -/
def modV : PyVal → PyVal → EvalRes
  | .vint a, .vint b =>
    if b = 0 then .err .zeroDiv else .ok (.vint (a - b * Int.fdiv a b))
  | a, b =>
    if b.toQ = 0 then .err .zeroDiv
    else .ok (.vfloat (a.toQ - b.toQ * ⌊a.toQ / b.toQ⌋))

/-- Unary minus. -/
def negV : PyVal → EvalRes
  | .vint a => .ok (.vint (-a))
  | .vfloat q => .ok (.vfloat (-q))

/-- Unary plus: the identity on numbers. -/
def uplusV (a : PyVal) : EvalRes := .ok a

/-- Exponentiation.  `int ** int` is exact (`int` for a nonnegative
exponent, `float` otherwise); with a float operand the result is a float
when the exponent is an exact integer; a fractional exponent over a
positive base has an irrational value in general and is `unmodeled`; over a
negative base the host (Python 3) produces a complex number, also outside
the exact model; `0 ** negative` raises `ZeroDivisionError`. -/
def powV : PyVal → PyVal → EvalRes
  | .vint a, .vint n =>
    if 0 ≤ n then .ok (.vint (a ^ n.toNat))
    else if a = 0 then .err .zeroDiv
    else .ok (.vfloat ((a : ℚ) ^ n))
  | a, b =>
    let q := a.toQ
    let r := b.toQ
    if r.den = 1 then
      if q = 0 ∧ r.num < 0 then .err .zeroDiv
      else .ok (.vfloat (q ^ r.num))
    else if q = 0 then
      if 0 < r then .ok (.vfloat 0) else .err .zeroDiv
    else .unmodeled

/-! ## The environment

`evaluate` builds, per call, the environment

    sqrt abs fact log ln exp  sin cos tan  asin acos atan  pi e

with the trig entries closed over the current angle mode (§`_get_trig_func`
and `_get_inv_trig_func`).  In the exact model a transcendental value is
`unmodeled`; the exactly-representable points of each function (and every
domain error, which the host raises before any value is produced) are
modeled precisely. -/

/-- Exact rational square root, if it exists. -/
def sqrtQ (q : ℚ) : Option ℚ :=
  let n := Nat.sqrt q.num.natAbs
  let d := Nat.sqrt q.den
  if (n : ℤ) * n = q.num ∧ d * d = q.den then some ((n : ℚ) / d) else none

/-- Is `q` an integral power of ten, and which? -/
def log10Exact (q : ℚ) : Option ℤ :=
  if q.num = 1 ∧ ∃ k ≤ q.den, 10 ^ k = q.den then
    some (-(Nat.log 10 q.den : ℤ))
  else if q.den = 1 ∧ q.num = 10 ^ (Nat.log 10 q.num.natAbs) then
    some (Nat.log 10 q.num.natAbs : ℤ)
  else none

/-- `math.factorial` as a fuelled recursion. -/
def factAux : ℕ → ℕ
  | 0 => 1
  | n + 1 => (n + 1) * factAux n

/-- Apply the environment function named `f` (angle mode `mode`) to one
value, in the exact model.  Every branch mirrors the host function bound to
that name in `evaluate`'s environment. -/
def applyFunc (_mode : AngleMode) (f : String) (v : PyVal) : EvalRes :=
  let q := v.toQ
  if f = "sqrt" then
    if q < 0 then .err .domain
    else match sqrtQ q with
      | some r => .ok (.vfloat r)
      | none => .unmodeled
  else if f = "abs" then
    match v with
    | .vint n => .ok (.vint |n|)
    | .vfloat x => .ok (.vfloat |x|)
  else if f = "fact" then
    match v with
    | .vint n => if n < 0 then .err .domain else .ok (.vint (factAux n.toNat))
    | .vfloat _ => .err .typeErr
  else if f = "log" then
    if q ≤ 0 then .err .domain
    else match log10Exact q with
      | some k => .ok (.vfloat (k : ℚ))
      | none => .unmodeled
  else if f = "ln" then
    if q ≤ 0 then .err .domain
    else if q = 1 then .ok (.vfloat 0) else .unmodeled
  else if f = "exp" then
    if q = 0 then .ok (.vfloat 1) else .unmodeled
  else if f = "sin" ∨ f = "tan" then
    -- in either angle mode the argument 0 maps to 0; any other exact
    -- rational argument has a transcendental value
    if q = 0 then .ok (.vfloat 0) else .unmodeled
  else if f = "cos" then
    if q = 0 then .ok (.vfloat 1) else .unmodeled
  else if f = "asin" ∨ f = "atan" then
    if f = "asin" ∧ 1 < |q| then .err .domain
    else if q = 0 then .ok (.vfloat 0) else .unmodeled
  else if f = "acos" then
    if 1 < |q| then .err .domain else .unmodeled
  else .err .nameErr

/-! ## Tree evaluation -/

mutual

/-- Evaluate a tree in the exact model, mirroring the host's evaluation of
the compiled expression against the restricted environment: names resolve
to the environment's constants and functions (`NameError` otherwise), a
call evaluates its callee and arguments left to right and then dispatches
(`TypeError` for a non-function callee or a wrong arity). -/
def evalQ (mode : AngleMode) : Ast → EvalRes
  | .num false q => .ok (.vint q.num)
  | .num true q => .ok (.vfloat q)
  | .name s =>
    if s = "pi" ∨ s = "e" then .unmodeled
    else if s ∈ funcNames then .unmodeled
    else .err .nameErr
  | .neg a => (evalQ mode a).bind negV
  | .uplus a => (evalQ mode a).bind uplusV
  | .add a b => (evalQ mode a).bind fun x => (evalQ mode b).bind fun y => addV x y
  | .sub a b => (evalQ mode a).bind fun x => (evalQ mode b).bind fun y => subV x y
  | .mul a b => (evalQ mode a).bind fun x => (evalQ mode b).bind fun y => mulV x y
  | .div a b => (evalQ mode a).bind fun x => (evalQ mode b).bind fun y => divV x y
  | .mod a b => (evalQ mode a).bind fun x => (evalQ mode b).bind fun y => modV x y
  | .pow a b => (evalQ mode a).bind fun x => (evalQ mode b).bind fun y => powV x y
  | .call f args =>
    match f with
    | .name s =>
      if s = "pi" ∨ s = "e" then
        -- the constant is looked up and then called: `TypeError`
        match evalArgsQ mode args with
        | .error r => r
        | .ok _ => .err .typeErr
      else if s ∈ funcNames then
        match evalArgsQ mode args with
        | .error r => r
        | .ok [v] => applyFunc mode s v
        | .ok _ => .err .typeErr
      else .err .nameErr
    | g =>
      (evalQ mode g).bind fun _ =>
        match evalArgsQ mode args with
        | .error r => r
        | .ok _ => .err .typeErr

/-- Evaluate the arguments of a call, left to right; a failure short-cuts. -/
def evalArgsQ (mode : AngleMode) : List Ast → Except EvalRes (List PyVal)
  | [] => .ok []
  | a :: as =>
    match evalQ mode a with
    | .ok v =>
      match evalArgsQ mode as with
      | .error r => .error r
      | .ok vs => .ok (v :: vs)
    | .err e => .error (.err e)
    | .unmodeled => .error .unmodeled

end

/-! ## Result formatting and the `evaluate` boundary

`evaluate` formats a `float` result with `%.10g` after flushing a
near-zero value to exactly `0`, renders any other result with `str`, and
catches every failure: `ZeroDivisionError` becomes `"Error: Div by 0"` and
any other exception becomes `"Error"`. -/

/-- Format a value as `evaluate` does:
`if isinstance(result, float): (flush |result| < 1e-10 to 0; "%.10g") else str(result)`. -/
def formatNum : PyVal → String
  | .vint n => intToStr n
  | .vfloat q => if |q| < 1 / 10 ^ 10 then "0" else fmtG10 q

/-- The full pipeline under the host semantics, before the error boundary:
glyph substitution, tokenizing, host-grammar parsing, exact evaluation. -/
def pyRun (mode : AngleMode) (s : String) : Except Unit EvalRes :=
  match lexPy (cleanChars s) with
  | .error _ => .error ()
  | .ok ts =>
    match pyParse ts with
    | .error _ => .error ()
    | .ok ast => .ok (evalQ mode ast)

/-- `CalculatorEngine.evaluate`.  The empty string returns `""` before
anything else runs.  A lexical or grammatical failure of the host compile,
and every run-time failure other than `ZeroDivisionError`, is caught as
`"Error"`; `ZeroDivisionError` as `"Error: Div by 0"`.  `none` stands for a
successful result whose display string lies outside the exact model. -/
def evaluate (mode : AngleMode) (s : String) : Option String :=
  if s = "" then some "" else
  match pyRun mode s with
  | .error () => some "Error"
  | .ok (.err .zeroDiv) => some "Error: Div by 0"
  | .ok (.err _) => some "Error"
  | .ok .unmodeled => none
  | .ok (.ok v) => some (formatNum v)

/-- The same pipeline under the specification's words: the specification
grammar replaces the host grammar (evaluation, formatting and the error
boundary are those of §4.3–4.5, which the exact model shares). -/
def specRun (mode : AngleMode) (s : String) : Except Unit EvalRes :=
  match lexSpec (cleanChars s) with
  | .error _ => .error ()
  | .ok ts =>
    match specParse ts with
    | .error _ => .error ()
    | .ok ast => .ok (evalQ mode ast)

/-! ## The ideal real/complex evaluator

A second evaluator over `ℝ` and `ℂ` interprets the same trees with the
host's floats idealised as exact reals, so that the trigonometric and
complex-power behaviour can be stated exactly.  It is noncomputable (real
arithmetic is not decidable); its value on the concrete inputs of the
claims is settled by proof. -/

open scoped Real

/-- `math.radians`: degrees to radians. -/
noncomputable def radiansR (x : ℝ) : ℝ := x * (π / 180)

/-- `math.degrees`: radians to degrees. -/
noncomputable def degreesR (x : ℝ) : ℝ := x * (180 / π)

/-- `CalculatorEngine._get_trig_func`: in degree mode, wrap the underlying
function with a degrees-to-radians conversion of the argument; in radian
mode, return it unchanged. -/
noncomputable def getTrigFunc (mode : AngleMode) (f : ℝ → ℝ) : ℝ → ℝ :=
  match mode with
  | .deg => fun x => f (radiansR x)
  | .rad => f

/-- `CalculatorEngine._get_inv_trig_func`: the underlying function computes
in radians; in degree mode its result is converted to degrees. -/
noncomputable def getInvTrigFunc (mode : AngleMode) (f : ℝ → ℝ) : ℝ → ℝ :=
  fun x =>
    let val := f x
    match mode with
    | .deg => degreesR val
    | .rad => val

/-- A value of the ideal model: a host `int`, a host `float` as an exact
real, or a host `complex` as an exact complex number. -/
inductive RVal where
  | rint (n : ℤ)
  | rfloat (x : ℝ)
  | rcomplex (z : ℂ)

/-- The complex value of an `RVal`. -/
noncomputable def RVal.toC : RVal → ℂ
  | .rint n => (n : ℂ)
  | .rfloat x => (x : ℂ)
  | .rcomplex z => z

/-- The real value of a non-complex `RVal` (junk on `rcomplex`). -/
noncomputable def RVal.toR : RVal → ℝ
  | .rint n => (n : ℝ)
  | .rfloat x => x
  | .rcomplex _ => 0

/-- Is this value a host `complex`? -/
def RVal.isC : RVal → Bool
  | .rcomplex _ => true
  | _ => false

/-- Outcome of the ideal evaluation; `unmodeled` only marks a function
object used as a value. -/
inductive RRes where
  | ok (v : RVal)
  | err (e : PyErr)
  | unmodeled

/-- Sequencing on `RRes`. -/
def RRes.bind : RRes → (RVal → RRes) → RRes
  | .ok v, f => f v
  | .err e, _ => .err e
  | .unmodeled, _ => .unmodeled

open Classical in
/-- Addition in the ideal model (complex if either side is complex). -/
noncomputable def addR (a b : RVal) : RRes :=
  match a, b with
  | .rint x, .rint y => .ok (.rint (x + y))
  | _, _ =>
    if a.isC ∨ b.isC then .ok (.rcomplex (a.toC + b.toC))
    else .ok (.rfloat (a.toR + b.toR))

open Classical in
/-- Subtraction in the ideal model. -/
noncomputable def subR (a b : RVal) : RRes :=
  match a, b with
  | .rint x, .rint y => .ok (.rint (x - y))
  | _, _ =>
    if a.isC ∨ b.isC then .ok (.rcomplex (a.toC - b.toC))
    else .ok (.rfloat (a.toR - b.toR))

open Classical in
/-- Multiplication in the ideal model. -/
noncomputable def mulR (a b : RVal) : RRes :=
  match a, b with
  | .rint x, .rint y => .ok (.rint (x * y))
  | _, _ =>
    if a.isC ∨ b.isC then .ok (.rcomplex (a.toC * b.toC))
    else .ok (.rfloat (a.toR * b.toR))

open Classical in
/-- True division in the ideal model. -/
noncomputable def divR (a b : RVal) : RRes :=
  if b.toC = 0 then .err .zeroDiv
  else if a.isC ∨ b.isC then .ok (.rcomplex (a.toC / b.toC))
  else .ok (.rfloat (a.toR / b.toR))

open Classical in
/-- Modulo in the ideal model (`TypeError` on complex operands). -/
noncomputable def modR (a b : RVal) : RRes :=
  if a.isC ∨ b.isC then .err .typeErr
  else if b.toR = 0 then .err .zeroDiv
  else .ok (.rfloat (a.toR - b.toR * ⌊a.toR / b.toR⌋))

/-- Unary minus in the ideal model. -/
noncomputable def negR : RVal → RRes
  | .rint n => .ok (.rint (-n))
  | .rfloat x => .ok (.rfloat (-x))
  | .rcomplex z => .ok (.rcomplex (-z))

open Classical in
/-- Exponentiation in the ideal model.  `int ** int` is exact; over the
reals an integral exponent keeps the result real; a fractional exponent
over a positive base is the real power, over a negative base the
(principal-branch) complex power, which is what the host (Python 3)
computes; `0 ** negative` raises `ZeroDivisionError`. -/
noncomputable def powR (a b : RVal) : RRes :=
  match a, b with
  | .rint x, .rint n =>
    if 0 ≤ n then .ok (.rint (x ^ n.toNat))
    else if x = 0 then .err .zeroDiv
    else .ok (.rfloat ((x : ℝ) ^ n))
  | _, _ =>
    if a.isC ∨ b.isC then
      if a.toC = 0 then
        if b.toC = 0 then .ok (.rcomplex 1)
        else if b.toC.im = 0 ∧ 0 < b.toC.re then .ok (.rcomplex 0)
        else .err .zeroDiv
      else .ok (.rcomplex (a.toC ^ b.toC))
    else
      let x := a.toR
      let r := b.toR
      if h : ∃ n : ℤ, r = (n : ℝ) then
        if x = 0 ∧ h.choose < 0 then .err .zeroDiv
        else .ok (.rfloat (x ^ h.choose))
      else if 0 < x then .ok (.rfloat (x ^ r))
      else if x = 0 then
        if 0 < r then .ok (.rfloat 0) else .err .zeroDiv
      else .ok (.rcomplex ((x : ℂ) ^ (r : ℂ)))

open Classical in
/-- Apply the environment function named `f` (angle mode `mode`) to one
value, in the ideal model.  The trigonometric entries go through
`getTrigFunc` / `getInvTrigFunc` exactly as `evaluate` builds them. -/
noncomputable def applyFuncR (mode : AngleMode) (f : String) (v : RVal) : RRes :=
  if f = "abs" then
    match v with
    | .rint n => .ok (.rint |n|)
    | .rfloat x => .ok (.rfloat |x|)
    | .rcomplex z => .ok (.rfloat (Complex.abs z))
  else if v.isC then .err .typeErr
  else
    let x := v.toR
    if f = "sqrt" then
      if x < 0 then .err .domain else .ok (.rfloat (Real.sqrt x))
    else if f = "fact" then
      match v with
      | .rint n => if n < 0 then .err .domain else .ok (.rint (factAux n.toNat))
      | _ => .err .typeErr
    else if f = "log" then
      if x ≤ 0 then .err .domain else .ok (.rfloat (Real.logb 10 x))
    else if f = "ln" then
      if x ≤ 0 then .err .domain else .ok (.rfloat (Real.log x))
    else if f = "exp" then .ok (.rfloat (Real.exp x))
    else if f = "sin" then .ok (.rfloat (getTrigFunc mode Real.sin x))
    else if f = "cos" then .ok (.rfloat (getTrigFunc mode Real.cos x))
    else if f = "tan" then .ok (.rfloat (getTrigFunc mode Real.tan x))
    else if f = "asin" then
      if 1 < |x| then .err .domain
      else .ok (.rfloat (getInvTrigFunc mode Real.arcsin x))
    else if f = "acos" then
      if 1 < |x| then .err .domain
      else .ok (.rfloat (getInvTrigFunc mode Real.arccos x))
    else if f = "atan" then .ok (.rfloat (getInvTrigFunc mode Real.arctan x))
    else .err .nameErr

mutual

/-- Evaluate a tree in the ideal model; the structure mirrors `evalQ`. -/
noncomputable def evalR (mode : AngleMode) : Ast → RRes
  | .num false q => .ok (.rint q.num)
  | .num true q => .ok (.rfloat (q : ℝ))
  | .name s =>
    if s = "pi" then .ok (.rfloat π)
    else if s = "e" then .ok (.rfloat (Real.exp 1))
    else if s ∈ funcNames then .unmodeled
    else .err .nameErr
  | .neg a => (evalR mode a).bind negR
  | .uplus a => (evalR mode a).bind fun v => .ok v
  | .add a b => (evalR mode a).bind fun x => (evalR mode b).bind fun y => addR x y
  | .sub a b => (evalR mode a).bind fun x => (evalR mode b).bind fun y => subR x y
  | .mul a b => (evalR mode a).bind fun x => (evalR mode b).bind fun y => mulR x y
  | .div a b => (evalR mode a).bind fun x => (evalR mode b).bind fun y => divR x y
  | .mod a b => (evalR mode a).bind fun x => (evalR mode b).bind fun y => modR x y
  | .pow a b => (evalR mode a).bind fun x => (evalR mode b).bind fun y => powR x y
  | .call f args =>
    match f with
    | .name s =>
      if s = "pi" ∨ s = "e" then
        match evalArgsR mode args with
        | .error r => r
        | .ok _ => .err .typeErr
      else if s ∈ funcNames then
        match evalArgsR mode args with
        | .error r => r
        | .ok [v] => applyFuncR mode s v
        | .ok _ => .err .typeErr
      else .err .nameErr
    | g =>
      (evalR mode g).bind fun _ =>
        match evalArgsR mode args with
        | .error r => r
        | .ok _ => .err .typeErr

/-- Evaluate call arguments in the ideal model. -/
noncomputable def evalArgsR (mode : AngleMode) : List Ast → Except RRes (List RVal)
  | [] => .ok []
  | a :: as =>
    match evalR mode a with
    | .ok v =>
      match evalArgsR mode as with
      | .error r => .error r
      | .ok vs => .ok (v :: vs)
    | .err e => .error (.err e)
    | .unmodeled => .error .unmodeled

end

open Classical in
/-- Format an ideal value as `evaluate` does; a real that is not an exact
rational, or a complex, has a display string outside the exact model. -/
noncomputable def formatR : RVal → Option String
  | .rint n => some (intToStr n)
  | .rfloat x =>
    if |x| < 1 / 10 ^ 10 then some "0"
    else if h : ∃ q : ℚ, ((q : ℝ) = x) then some (fmtG10 h.choose)
    else none
  | .rcomplex _ => none

/-- The full pipeline in the ideal model, before the error boundary. -/
noncomputable def pyRunR (mode : AngleMode) (s : String) : Except Unit RRes :=
  match lexPy (cleanChars s) with
  | .error _ => .error ()
  | .ok ts =>
    match pyParse ts with
    | .error _ => .error ()
    | .ok ast => .ok (evalR mode ast)

/-- `CalculatorEngine.evaluate` in the ideal model. -/
noncomputable def evaluateR (mode : AngleMode) (s : String) : Option String :=
  if s = "" then some "" else
  match pyRunR mode s with
  | .error () => some "Error"
  | .ok (.err .zeroDiv) => some "Error: Div by 0"
  | .ok (.err _) => some "Error"
  | .ok .unmodeled => none
  | .ok (.ok v) => formatR v

/-! ## The equation solvers -/

/-- Result of `CalculatorEngine.solve_linear`: the string `"No Solution"`
or the number `-b / a` (the UI passes floats; the exact model uses ℚ). -/
inductive LinResult where
  | noSolution
  | root (x : ℚ)
deriving DecidableEq, Repr

/-- `CalculatorEngine.solve_linear`: `if a == 0: return "No Solution"`,
else `-b / a`. -/
def solve_linear (a b : ℚ) : LinResult :=
  if a = 0 then .noSolution else .root (-b / a)

/-- The crash of the quadratic solver: an uncaught `ZeroDivisionError`
from the division by `2*a`. -/
inductive QuadErr where
  | zeroDiv
deriving DecidableEq, Repr

/-- `%.2f`: fixed two-decimal rendering of the scaled integer `n/100`. -/
def fmtCenti (n : ℤ) : String :=
  (if n < 0 then "-" else "") ++ natToStr (n.natAbs / 100) ++ "." ++
    (if n.natAbs % 100 < 10 then "0" else "") ++ natToStr (n.natAbs % 100)

/-- `%.2f` on an ideal real: round to the nearest hundredth (the host
rounds the stored double; ties do not arise in the claims). -/
noncomputable def fmt2 (x : ℝ) : String := fmtCenti ⌊x * 100 + 1 / 2⌋

/-- The host's `f"{z:.2f}"` on a complex: real part, forced-sign imaginary
part, a trailing `j`. -/
noncomputable def fmtC2 (z : ℂ) : String :=
  fmt2 z.re ++ (if z.im < 0 then "-" ++ fmt2 (-z.im) else "+" ++ fmt2 z.im) ++ "j"

open Classical in
/-- `CalculatorEngine.solve_quadratic`: discriminant `d = b² - 4ac`; for
`d < 0` two conjugate roots through `cmath.sqrt(d) = i·√(-d)`, else the two
real roots, each `%.2f`-rendered, `+` root first, joined by `", "`.  The
divisions by `2*a` raise `ZeroDivisionError` when `a = 0` — uncaught in the
engine, modeled as the `Except` error. -/
noncomputable def solve_quadratic (a b c : ℝ) : Except QuadErr String :=
  let d := b ^ 2 - 4 * a * c
  if d < 0 then
    if (2 * a : ℝ) = 0 then .error .zeroDiv
    else
      let val : ℂ := Complex.I * Real.sqrt (-d)
      .ok (fmtC2 ((-b / (2 * a) : ℝ) + val / (2 * a : ℝ)) ++ ", " ++
           fmtC2 ((-b / (2 * a) : ℝ) - val / (2 * a : ℝ)))
  else
    if (2 * a : ℝ) = 0 then .error .zeroDiv
    else
      .ok (fmt2 ((-b + Real.sqrt d) / (2 * a)) ++ ", " ++
           fmt2 ((-b - Real.sqrt d) / (2 * a)))

/-- The `+` real root of the quadratic formula. -/
noncomputable def realRootP (a b c : ℝ) : ℝ :=
  (-b + Real.sqrt (b ^ 2 - 4 * a * c)) / (2 * a)

/-- The `-` real root of the quadratic formula. -/
noncomputable def realRootM (a b c : ℝ) : ℝ :=
  (-b - Real.sqrt (b ^ 2 - 4 * a * c)) / (2 * a)

/-- The `+` complex root the solver builds for a negative discriminant. -/
noncomputable def cplxRootP (a b c : ℝ) : ℂ :=
  ((-b / (2 * a) : ℝ) : ℂ) +
    (Complex.I * Real.sqrt (-(b ^ 2 - 4 * a * c))) / ((2 * a : ℝ) : ℂ)

/-- The `-` complex root the solver builds for a negative discriminant. -/
noncomputable def cplxRootM (a b c : ℝ) : ℂ :=
  ((-b / (2 * a) : ℝ) : ℂ) -
    (Complex.I * Real.sqrt (-(b ^ 2 - 4 * a * c))) / ((2 * a : ℝ) : ℂ)

/-- The characters the modeled tokenizer can consume (the specification's
`[0-9.+\-*/^(),a-zA-Z]` together with the display glyphs, whitespace and
`%`). -/
def lexAlphabet (c : Char) : Bool :=
  isDig c || isLetter c ||
    (c ∈ ['.', '+', '-', '*', '/', '%', '(', ')', ',', ' ', '\t', '^', '×', '÷', '√'])

/-- Characters with no role at all in a host expression, which the host
compile refuses wherever they occur (no `=` is in the alphabet, so `!`
cannot form `!=`). -/
def lexRejected (c : Char) : Bool := c ∈ ['!', '$', '?', ';']

/-- Token lists of the purely arithmetic fragment of the grammar: no
identifier token (so no function calls or constants) and no `%` token
(which only the host gives a meaning). -/
def arithToks (ts : List Tok) : Bool :=
  ts.all fun t =>
    match t with
    | .name _ => false
    | .percent => false
    | _ => true

/-!
# Theorems
-/

/-- **C5.**  For all coefficients `a` and `b`, `solveLinear` returns
`-b/a` when `a` is nonzero — and that value is a genuine root of
`a·x + b = 0` — and reports "No Solution" exactly when `a = 0`, including
the degenerate case `b = 0`; in particular `solveLinear(0, 5)` yields
"No Solution" and `solveLinear(2, -4)` returns `2`. -/
theorem solve_linear_correct :
    (∀ a b : ℚ, solve_linear a b = .noSolution ↔ a = 0) ∧
    (∀ a b x : ℚ, solve_linear a b = .root x → a ≠ 0 ∧ a * x + b = 0) ∧
    solve_linear 0 5 = .noSolution ∧ solve_linear 2 (-4) = .root 2 := by
  refine ⟨fun a b => ?_, fun a b x h => ?_, by norm_num [solve_linear],
    by norm_num [solve_linear]⟩
  · unfold solve_linear
    by_cases ha : a = 0 <;> simp [ha]
  · unfold solve_linear at h
    by_cases ha : a = 0
    · simp [ha] at h
    · simp only [ha, if_false] at h
      refine ⟨ha, ?_⟩
      cases h
      field_simp
      ring

/-- Witness for `solve_linear_correct` at the concrete input `(2, -4)`. -/
theorem solve_linear_correct_witness :
    (2 : ℚ) ≠ 0 ∧ (2 : ℚ) * 2 + (-4) = 0 :=
  solve_linear_correct.2.1 2 (-4) 2 (by norm_num [solve_linear])

/-- **C7, counterexample.**  `solveQuadratic(0, 1, 1)` does not fail with a
classified degenerate-equation error: it raises an uncaught
`ZeroDivisionError` inside the quadratic formula (the crash modeled by
`QuadErr.zeroDiv`); no `DegenerateEquation` classification exists in the
code. -/
theorem solve_quadratic_zero_a_counterexample :
    solve_quadratic 0 1 1 = .error .zeroDiv := by
  unfold solve_quadratic
  norm_num

/-- **C7, amended.**  For all coefficients `b` and `c`, calling
`solveQuadratic` with `a = 0` raises an uncaught `ZeroDivisionError` from
the division by `2·a` (the discriminant `b²` is never negative, so the real
branch is taken and its division crashes); the failure is not classified as
a `SolveError`. -/
theorem solve_quadratic_zero_a_crashes :
    ∀ b c : ℝ, solve_quadratic 0 b c = .error .zeroDiv := by
  intro b c
  unfold solve_quadratic
  have h1 : ¬(b ^ 2 - 4 * 0 * c < 0) := by nlinarith [sq_nonneg b]
  simp [h1]

/-- **C4.**  For all coefficients with `a ≠ 0`, `solveQuadratic` computes
the discriminant `d = b² - 4ac`; for `d ≥ 0` it returns the two real roots
`(-b ± √d)/(2a)` — genuine roots of the quadratic — each rendered to two
decimal places with the `+` root first; for `d < 0` it returns two
complex-conjugate roots built from the complex square root `i·√(-d)` of
`d`, each rendered to two decimal places; in particular
`solveQuadratic(1, -3, 2)` returns `"2.00, 1.00"`. -/
theorem solve_quadratic_correct :
    (∀ a b c : ℝ, a ≠ 0 →
      (0 ≤ b ^ 2 - 4 * a * c →
        solve_quadratic a b c =
          .ok (fmt2 (realRootP a b c) ++ ", " ++ fmt2 (realRootM a b c)) ∧
        a * realRootP a b c ^ 2 + b * realRootP a b c + c = 0 ∧
        a * realRootM a b c ^ 2 + b * realRootM a b c + c = 0) ∧
      (b ^ 2 - 4 * a * c < 0 →
        solve_quadratic a b c =
          .ok (fmtC2 (cplxRootP a b c) ++ ", " ++ fmtC2 (cplxRootM a b c)) ∧
        cplxRootM a b c = (starRingEnd ℂ) (cplxRootP a b c) ∧
        (a : ℂ) * cplxRootP a b c ^ 2 + (b : ℂ) * cplxRootP a b c + (c : ℂ) = 0 ∧
        (a : ℂ) * cplxRootM a b c ^ 2 + (b : ℂ) * cplxRootM a b c + (c : ℂ) = 0)) ∧
    solve_quadratic 1 (-3) 2 = .ok "2.00, 1.00" := by
  constructor
  · intro a b c ha
    have h2a : (2 * a : ℝ) ≠ 0 := by
      intro h
      exact ha (by linarith [h])
    constructor
    · intro hd
      have hs : Real.sqrt (b ^ 2 - 4 * a * c) ^ 2 = b ^ 2 - 4 * a * c :=
        Real.sq_sqrt hd
      set s := Real.sqrt (b ^ 2 - 4 * a * c) with hsdef
      refine ⟨?_, ?_, ?_⟩
      · unfold solve_quadratic
        rw [if_neg (not_lt.mpr hd), if_neg (fun h => h2a h)]
        rfl
      · unfold realRootP
        rw [← hsdef]
        field_simp
        linear_combination (2 * a ^ 2) * hs
      · unfold realRootM
        rw [← hsdef]
        field_simp
        linear_combination (2 * a ^ 2) * hs
    · intro hd
      have hneg : (0 : ℝ) ≤ -(b ^ 2 - 4 * a * c) := by linarith
      have ht : Real.sqrt (-(b ^ 2 - 4 * a * c)) ^ 2 = -(b ^ 2 - 4 * a * c) :=
        Real.sq_sqrt hneg
      set t := Real.sqrt (-(b ^ 2 - 4 * a * c)) with htdef
      have ht' : ((t : ℝ) : ℂ) ^ 2 = -(((b : ℂ)) ^ 2 - 4 * (a : ℂ) * (c : ℂ)) := by
        rw [← Complex.ofReal_pow, ht]
        push_cast
        ring
      refine ⟨?_, ?_, ?_, ?_⟩
      · unfold solve_quadratic
        rw [if_pos hd, if_neg (fun h => h2a h), ← htdef]
        rfl
      · unfold cplxRootP cplxRootM
        rw [← htdef]
        simp only [map_add, map_div₀, map_mul, Complex.conj_I, Complex.conj_ofReal]
        ring
      · have haC : (a : ℂ) ≠ 0 := Complex.ofReal_ne_zero.mpr ha
        unfold cplxRootP
        rw [← htdef]
        push_cast
        field_simp
        linear_combination (16 * (a : ℂ) ^ 5 * ((t : ℝ) : ℂ) ^ 2) * Complex.I_sq +
          (-(16 * (a : ℂ) ^ 5)) * ht'
      · have haC : (a : ℂ) ≠ 0 := Complex.ofReal_ne_zero.mpr ha
        unfold cplxRootM
        rw [← htdef]
        push_cast
        field_simp
        linear_combination (16 * (a : ℂ) ^ 5 * ((t : ℝ) : ℂ) ^ 2) * Complex.I_sq +
          (-(16 * (a : ℂ) ^ 5)) * ht'
  · have hr1 : (-(-3 : ℝ) + Real.sqrt ((-3 : ℝ) ^ 2 - 4 * 1 * 2)) / (2 * 1) = 2 := by
      rw [show ((-3 : ℝ)) ^ 2 - 4 * 1 * 2 = 1 by norm_num, Real.sqrt_one]
      norm_num
    have hr2 : (-(-3 : ℝ) - Real.sqrt ((-3 : ℝ) ^ 2 - 4 * 1 * 2)) / (2 * 1) = 1 := by
      rw [show ((-3 : ℝ)) ^ 2 - 4 * 1 * 2 = 1 by norm_num, Real.sqrt_one]
      norm_num
    have hfmt2 : fmt2 (2 : ℝ) = "2.00" := by
      unfold fmt2
      rw [show ⌊(2 : ℝ) * 100 + 1 / 2⌋ = (200 : ℤ) by
        rw [Int.floor_eq_iff]
        norm_num]
      decide
    have hfmt1 : fmt2 (1 : ℝ) = "1.00" := by
      unfold fmt2
      rw [show ⌊(1 : ℝ) * 100 + 1 / 2⌋ = (100 : ℤ) by
        rw [Int.floor_eq_iff]
        norm_num]
      decide
    unfold solve_quadratic
    rw [if_neg (by norm_num), if_neg (by norm_num), hr1, hr2, hfmt2, hfmt1]
    rfl

/-- Witness for `solve_quadratic_correct` at the concrete input
`(1, -3, 2)`. -/
theorem solve_quadratic_correct_witness :
    solve_quadratic 1 (-3) 2 =
      .ok (fmt2 (realRootP 1 (-3) 2) ++ ", " ++ fmt2 (realRootM 1 (-3) 2)) ∧
    1 * realRootP 1 (-3) 2 ^ 2 + (-3) * realRootP 1 (-3) 2 + 2 = 0 ∧
    1 * realRootM 1 (-3) 2 ^ 2 + (-3) * realRootM 1 (-3) 2 + 2 = 0 :=
  (solve_quadratic_correct.1 1 (-3) 2 (by norm_num)).1 (by norm_num)

/-! ### Formatted values are never empty -/

theorem natDigits_ne_nil (m : ℕ) : natDigits m ≠ [] := by
  unfold natDigits
  by_cases h : m = 0
  · simp [h]
  · rw [if_neg h]
    match m, h with
    | m + 1, _ =>
      unfold natDigitsAux
      simp

theorem natToStr_ne_empty (m : ℕ) : natToStr m ≠ "" := by
  unfold natToStr
  intro h
  exact natDigits_ne_nil m (by simpa using congrArg String.data h)

theorem intToStr_ne_empty (n : ℤ) : intToStr n ≠ "" := by
  unfold intToStr
  intro h
  apply natToStr_ne_empty n.natAbs
  have := congrArg String.data h
  simp only [String.data_append] at this
  rcases List.append_eq_nil.mp (by simpa using this) with ⟨-, h2⟩
  exact String.ext h2

theorem g10Body_ne_nil (m e : ℤ) : g10Body m e ≠ [] := by
  unfold g10Body
  have hds := natDigits_ne_nil m.toNat
  split
  · split
    · intro h
      rcases List.append_eq_nil.mp h with ⟨h1, -⟩
      rw [List.take_eq_nil_iff] at h1
      exact hds (by tauto)
    · simp
  · intro h
    rcases List.append_eq_nil.mp h with ⟨h1, -⟩
    rcases List.append_eq_nil.mp h1 with ⟨h2, -⟩
    rw [List.take_eq_nil_iff] at h2
    exact hds (by tauto)

theorem stringMk_append_ne_empty (l1 l2 : List Char) (h : l2 ≠ []) :
    String.mk (l1 ++ l2) ≠ "" := by
  intro he
  rw [show ("" : String) = String.mk [] from rfl] at he
  injection he with he2
  exact h (List.append_eq_nil.mp he2).2

theorem fmtG10_ne_empty (q : ℚ) : fmtG10 q ≠ "" := by
  unfold fmtG10
  split
  · simp
  · apply stringMk_append_ne_empty
    split
    · exact g10Body_ne_nil _ _
    · exact g10Body_ne_nil _ _

theorem formatNum_ne_empty (v : PyVal) : formatNum v ≠ "" := by
  cases v with
  | vint n => exact intToStr_ne_empty n
  | vfloat q =>
    show (if |q| < 1 / 10 ^ 10 then "0" else fmtG10 q) ≠ ""
    split
    · simp
    · exact fmtG10_ne_empty q

/-- **C2.**  For every input string, `evaluate` returns a string and never
propagates an unhandled exception; a failing input returns exactly
`"Error: Div by 0"` when the failure is a division by zero and exactly
`"Error"` for every other kind of failure (lexical, grammatical, or
evaluation); in particular `evaluate("10/0")` returns `"Error: Div by 0"`
and `evaluate("(")` returns `"Error"`.  (`none` marks a successful result
whose display string is outside the exact model; it is never a failure.) -/
theorem evaluate_error_boundary :
    (∀ mode s, evaluate mode s = none ∨ evaluate mode s = some "" ∨
      evaluate mode s = some "Error" ∨ evaluate mode s = some "Error: Div by 0" ∨
      ∃ v, evaluate mode s = some (formatNum v)) ∧
    (∀ mode s e, s ≠ "" → pyRun mode s = .ok (.err e) →
      evaluate mode s = some (if e = .zeroDiv then "Error: Div by 0" else "Error")) ∧
    (∀ mode s, s ≠ "" → pyRun mode s = .error () →
      evaluate mode s = some "Error") ∧
    (∀ mode, evaluate mode "10/0" = some "Error: Div by 0") ∧
    (∀ mode, evaluate mode "(" = some "Error") := by
  refine ⟨fun mode s => ?_, fun mode s e hs h => ?_, fun mode s hs h => ?_,
    fun mode => rfl, fun mode => rfl⟩
  · by_cases hs : s = ""
    · subst hs
      right; left; rfl
    · unfold evaluate
      rw [if_neg hs]
      cases h : pyRun mode s with
      | error u =>
        cases u
        right; right; left; rfl
      | ok r =>
        cases r with
        | ok v =>
          right; right; right; right
          exact ⟨v, rfl⟩
        | err e =>
          cases e
          · right; right; right; left; rfl
          all_goals right; right; left; rfl
        | unmodeled => left; rfl
  · unfold evaluate
    rw [if_neg hs, h]
    cases e <;> rfl
  · unfold evaluate
    rw [if_neg hs, h]

/-- Witness for `evaluate_error_boundary` at the concrete input `"10/0"`,
whose run fails with a division by zero. -/
theorem evaluate_error_boundary_witness :
    evaluate .deg "10/0" = some (if PyErr.zeroDiv = .zeroDiv
      then "Error: Div by 0" else "Error") :=
  evaluate_error_boundary.2.1 .deg "10/0" .zeroDiv (by decide) rfl

/-- **C10.**  `evaluate` applied to the empty string returns `""`
immediately, which is neither a formatted numeric string (formatted values
are never empty) nor one of the two documented error strings; every other
input returns a formatted value, an error string, or (in the exact model)
the `none` marker standing for a stringified value outside the model. -/
theorem evaluate_empty_string :
    (∀ mode, evaluate mode "" = some "") ∧
    ("" : String) ≠ "Error" ∧ ("" : String) ≠ "Error: Div by 0" ∧
    (∀ v, formatNum v ≠ "") ∧
    (∀ mode s, s ≠ "" →
      evaluate mode s = none ∨ evaluate mode s = some "Error" ∨
      evaluate mode s = some "Error: Div by 0" ∨
      ∃ v, evaluate mode s = some (formatNum v)) := by
  refine ⟨fun mode => rfl, by decide, by decide, formatNum_ne_empty,
    fun mode s hs => ?_⟩
  unfold evaluate
  rw [if_neg hs]
  cases h : pyRun mode s with
  | error u =>
    cases u
    right; left; rfl
  | ok r =>
    cases r with
    | ok v =>
      right; right; right
      exact ⟨v, rfl⟩
    | err e =>
      cases e
      · right; right; left; rfl
      all_goals right; left; rfl
    | unmodeled => left; rfl

/-- Witness for `evaluate_empty_string` at the concrete input `"10/0"`. -/
theorem evaluate_empty_string_witness :
    evaluate .deg "10/0" = none ∨ evaluate .deg "10/0" = some "Error" ∨
    evaluate .deg "10/0" = some "Error: Div by 0" ∨
    ∃ v, evaluate .deg "10/0" = some (formatNum v) :=
  evaluate_empty_string.2.2.2.2 .deg "10/0" (by decide)

/-! ### Lexical rejection -/

theorem lexNum_split (cs : List Char) (t : Tok) (rest : List Char)
    (h : lexNum cs = .ok (t, rest)) :
    ∃ pre, cs = pre ++ rest ∧ ∀ c ∈ pre, isDig c = true ∨ c = '.' := by
  simp only [lexNum] at h
  split at h
  case h_1 r2 heq =>
    split at h
    · exact absurd h (by simp)
    · rw [Except.ok.injEq, Prod.mk.injEq] at h
      refine ⟨cs.takeWhile isDig ++ '.' :: r2.takeWhile isDig, ?_, ?_⟩
      · rw [← h.2, List.append_assoc]
        conv_lhs => rw [← List.takeWhile_append_dropWhile isDig cs, heq]
        simp [List.takeWhile_append_dropWhile]
      · intro c hc
        rcases List.mem_append.mp hc with hc | hc
        · exact .inl (List.mem_takeWhile_imp hc)
        · rcases List.mem_cons.mp hc with hc | hc
          · exact .inr hc
          · exact .inl (List.mem_takeWhile_imp hc)
  case h_2 hne =>
    split at h
    · rw [Except.ok.injEq, Prod.mk.injEq] at h
      refine ⟨cs.takeWhile isDig, ?_, ?_⟩
      · rw [← h.2, List.takeWhile_append_dropWhile]
      · exact fun c hc => .inl (List.mem_takeWhile_imp hc)
    · exact absurd h (by simp)

theorem rejected_cases (c : Char) (h : lexRejected c = true) :
    c = '!' ∨ c = '$' ∨ c = '?' ∨ c = ';' := by
  unfold lexRejected at h
  simpa using h

theorem rejected_not_digitish (c : Char) (h : lexRejected c = true) :
    ¬(isDig c = true ∨ c = '.') := by
  rcases rejected_cases c h with h | h | h | h <;> subst h <;> decide

theorem rejected_not_letter (c : Char) (h : lexRejected c = true) :
    isLetter c = false := by
  rcases rejected_cases c h with h | h | h | h <;> subst h <;> decide

/-- A character stream drawn from the modeled alphabet that contains a
rejected character fails to tokenize. -/
theorem lexLoop_rejected : ∀ fuel (cs : List Char),
    (∃ c ∈ cs, lexRejected c = true) →
    ∃ e, lexLoop fuel cs = .error e := by
  intro fuel
  induction fuel with
  | zero => exact fun cs _ => ⟨.fuel, rfl⟩
  | succ f ih =>
    intro cs hex
    match cs with
    | [] =>
      obtain ⟨c, hc, -⟩ := hex
      exact absurd hc (by simp)
    | c :: cs' =>
      obtain ⟨b, hb, hbr⟩ := hex
      by_cases hsp : c = ' ' ∨ c = '\t'
      · have hbc : b ∈ cs' := by
          rcases List.mem_cons.mp hb with hb1 | hb1
          · exfalso
            rcases hsp with h | h <;> subst h <;> subst hb1 <;> exact absurd hbr (by decide)
          · exact hb1
        obtain ⟨e, he⟩ := ih cs' ⟨b, hbc, hbr⟩
        exact ⟨e, by unfold lexLoop; rw [if_pos hsp]; exact he⟩
      · by_cases hdig : isDig c = true ∨ c = '.'
        · cases hlex : lexNum (c :: cs') with
          | error e =>
            refine ⟨e, ?_⟩
            unfold lexLoop
            rw [if_neg hsp, if_pos hdig, hlex]
          | ok p =>
            obtain ⟨t, rest⟩ := p
            obtain ⟨pre, hsplit, hpre⟩ := lexNum_split _ _ _ hlex
            have hbrest : b ∈ rest := by
              have := hb
              rw [hsplit] at this
              rcases List.mem_append.mp this with h1 | h1
              · exact absurd (hpre b h1) (rejected_not_digitish b hbr)
              · exact h1
            obtain ⟨e, he⟩ := ih rest ⟨b, hbrest, hbr⟩
            refine ⟨e, ?_⟩
            unfold lexLoop
            rw [if_neg hsp, if_pos hdig, hlex]
            simp only [he]
        · by_cases hlet : isLetter c = true
          · have hbrest : b ∈ (c :: cs').dropWhile isLetter := by
              have hsplit := (List.takeWhile_append_dropWhile isLetter (c :: cs')).symm
              rw [hsplit] at hb
              rcases List.mem_append.mp hb with h1 | h1
              · have := List.mem_takeWhile_imp h1
                rw [rejected_not_letter b hbr] at this
                exact absurd this (by simp)
              · exact h1
            obtain ⟨e, he⟩ := ih _ ⟨b, hbrest, hbr⟩
            refine ⟨e, ?_⟩
            unfold lexLoop
            rw [if_neg hsp, if_neg hdig, if_pos hlet, he]
          · by_cases hstar : c = '*'
            · subst hstar
              have hbc : b ∈ cs' := by
                rcases List.mem_cons.mp hb with hb1 | hb1
                · exact absurd hbr (by rw [hb1]; decide)
                · exact hb1
              by_cases hh : cs'.head? = some '*'
              · have hbt : b ∈ cs'.tail := by
                  match cs', hh, hbc with
                  | c2 :: cs2, hh, hbc =>
                    have hc2 : c2 = '*' := by simpa using hh
                    subst hc2
                    rcases List.mem_cons.mp hbc with hb1 | hb1
                    · exact absurd hbr (by rw [hb1]; decide)
                    · exact hb1
                obtain ⟨e, he⟩ := ih cs'.tail ⟨b, hbt, hbr⟩
                refine ⟨e, ?_⟩
                unfold lexLoop
                rw [if_neg hsp, if_neg hdig, if_neg (by simpa using hlet),
                  if_pos rfl, if_pos hh, he]
              · obtain ⟨e, he⟩ := ih cs' ⟨b, hbc, hbr⟩
                refine ⟨e, ?_⟩
                unfold lexLoop
                rw [if_neg hsp, if_neg hdig, if_neg (by simpa using hlet),
                  if_pos rfl, if_neg hh, he]
            · cases htok : (if c = '+' then some Tok.plus
                  else if c = '-' then some Tok.minus
                  else if c = '/' then some Tok.slash
                  else if c = '%' then some Tok.percent
                  else if c = '(' then some Tok.lparen
                  else if c = ')' then some Tok.rparen
                  else if c = ',' then some Tok.comma
                  else none) with
              | none =>
                refine ⟨.badChar c, ?_⟩
                unfold lexLoop
                rw [if_neg hsp, if_neg hdig, if_neg (by simpa using hlet),
                  if_neg hstar]
                simp only [htok]
              | some t =>
                have hbne : b ≠ c := by
                  intro he
                  rw [← he] at htok
                  rcases rejected_cases b hbr with h | h | h | h <;> subst h <;>
                    simp at htok
                have hbc : b ∈ cs' := by
                  rcases List.mem_cons.mp hb with hb1 | hb1
                  · exact absurd hb1 hbne
                  · exact hb1
                obtain ⟨e, he⟩ := ih cs' ⟨b, hbc, hbr⟩
                refine ⟨e, ?_⟩
                unfold lexLoop
                rw [if_neg hsp, if_neg hdig, if_neg (by simpa using hlet),
                  if_neg hstar]
                simp only [htok, he]

theorem mem_cleanChars_of_rejected (s : String) (b : Char) (hb : b ∈ s.data)
    (hbr : lexRejected b = true) : b ∈ cleanChars s := by
  unfold cleanChars
  rw [List.mem_flatten]
  refine ⟨glyphSub b, List.mem_map_of_mem _ hb, ?_⟩
  have hgb : glyphSub b = [b] := by
    rcases rejected_cases b hbr with h | h | h | h <;> subst h <;> decide
  rw [hgb]
  simp

/-- **C9, counterexample.**  The input `"10%3"`, which contains the
character `%` outside the set `[0-9.+\-*/^(),a-zA-Z]`, does not fail with a
lexical error: the host evaluates `%` as the modulo operator and `evaluate`
returns the number `"1"`, not an error string. -/
theorem evaluate_percent_counterexample :
    evaluate .deg "10%3" = some "1" ∧ ("1" : String) ≠ "Error" ∧
    ("1" : String) ≠ "Error: Div by 0" :=
  ⟨rfl, by decide, by decide⟩

/-- **C9, amended.**  Characters with no role in the host expression
grammar (such as `!`, `$`, `?`, `;`) do make evaluation fail with a lexical
error surfaced as `"Error"` — stated over inputs drawn from the modeled
alphabet plus those characters — but characters the host grammar gives a
meaning to are evaluated rather than rejected: `%` is modulo, so
`evaluate("10%3")` returns `"1"`. -/
theorem evaluate_lex_rejection :
    (∀ mode s, (∀ c ∈ s.data, lexAlphabet c = true ∨ lexRejected c = true) →
      (∃ c ∈ s.data, lexRejected c = true) →
      evaluate mode s = some "Error") ∧
    evaluate .deg "10%3" = some "1" := by
  refine ⟨fun mode s _hall hex => ?_, rfl⟩
  obtain ⟨b, hb, hbr⟩ := hex
  have hs : s ≠ "" := by
    intro h
    subst h
    exact absurd hb (by simp)
  have hmem : b ∈ cleanChars s := mem_cleanChars_of_rejected s b hb hbr
  obtain ⟨e, he⟩ := lexLoop_rejected ((cleanChars s).length + 1) _ ⟨b, hmem, hbr⟩
  unfold evaluate pyRun lexPy
  rw [if_neg hs, he]

/-- Witness for `evaluate_lex_rejection` at the concrete input `"10!3"`. -/
theorem evaluate_lex_rejection_witness :
    evaluate .deg "10!3" = some "Error" :=
  evaluate_lex_rejection.1 .deg "10!3" (by decide) (by decide)

/-! ### Evaluating trigonometric calls in the ideal model -/

theorem evalR_sin_deg (q : ℚ) :
    evalR .deg (.call (.name "sin") [.num false q]) =
      .ok (.rfloat (Real.sin ((q.num : ℝ) * (π / 180)))) := rfl

theorem evalR_sin_rad (q : ℚ) :
    evalR .rad (.call (.name "sin") [.num false q]) =
      .ok (.rfloat (Real.sin (q.num : ℝ))) := rfl

open Classical in
theorem formatR_rational (x : ℝ) (q : ℚ) (hq : (q : ℝ) = x)
    (hbig : ¬|x| < 1 / 10 ^ 10) : formatR (.rfloat x) = some (fmtG10 q) := by
  show (if |x| < 1 / 10 ^ 10 then some "0"
    else if h : ∃ p : ℚ, ((p : ℝ) = x) then some (fmtG10 h.choose) else none) =
    some (fmtG10 q)
  rw [if_neg hbig, dif_pos ⟨q, hq⟩]
  congr 1
  have h2 := Classical.choose_spec (⟨q, hq⟩ : ∃ p : ℚ, ((p : ℝ) = x))
  exact congrArg fmtG10 (Rat.cast_injective (h2.trans hq.symm))

open Classical in
theorem formatR_small (x : ℝ) (hx : |x| < 1 / 10 ^ 10) :
    formatR (.rfloat x) = some "0" := by
  show (if |x| < 1 / 10 ^ 10 then some "0"
    else if h : ∃ p : ℚ, ((p : ℝ) = x) then some (fmtG10 h.choose) else none) =
    some "0"
  rw [if_pos hx]

/-- **C3.**  In degree mode the engine's trig dispatch computes the
underlying function of the argument converted from degrees to radians, and
the inverse dispatch converts the radian result to degrees; in radian mode
both apply the underlying function directly; in particular, in degree mode
`evaluate("sin(90)")` formats to `"1"` and in radian mode
`evaluate("sin(0)")` formats to `"0"`. -/
theorem trig_angle_mode_correct :
    (∀ (f : ℝ → ℝ) (x : ℝ), getTrigFunc .deg f x = f (x * (π / 180))) ∧
    (∀ f : ℝ → ℝ, getTrigFunc .rad f = f) ∧
    (∀ (f : ℝ → ℝ) (x : ℝ), getInvTrigFunc .deg f x = f x * (180 / π)) ∧
    (∀ (f : ℝ → ℝ) (x : ℝ), getInvTrigFunc .rad f x = f x) ∧
    evaluateR .deg "sin(90)" = some "1" ∧
    evaluateR .rad "sin(0)" = some "0" := by
  refine ⟨fun f x => rfl, fun f => rfl, fun f x => rfl, fun f x => rfl, ?_, ?_⟩
  · have hval : Real.sin (((90 : ℚ).num : ℝ) * (π / 180)) = 1 := by
      rw [show (((90 : ℚ).num : ℝ)) * (π / 180) = π / 2 by
        rw [Rat.num_ofNat]
        push_cast
        ring]
      exact Real.sin_pi_div_two
    unfold evaluateR pyRunR
    rw [if_neg (by decide)]
    simp only [show lexPy (cleanChars "sin(90)") =
        .ok [.name "sin", .lparen, .num false 90, .rparen] from rfl,
      show pyParse [Tok.name "sin", .lparen, .num false 90, .rparen] =
        .ok (.call (.name "sin") [.num false 90]) from rfl,
      evalR_sin_deg, hval]
    rw [formatR_rational 1 1 (by norm_num) (by norm_num),
      show fmtG10 (1 : ℚ) = "1" by with_unfolding_all rfl]
  · have hval : Real.sin (((0 : ℚ).num : ℝ)) = 0 := by
      rw [show (((0 : ℚ).num : ℝ)) = 0 by norm_num]
      exact Real.sin_zero
    unfold evaluateR pyRunR
    rw [if_neg (by decide)]
    simp only [show lexPy (cleanChars "sin(0)") =
        .ok [.name "sin", .lparen, .num false 0, .rparen] from rfl,
      show pyParse [Tok.name "sin", .lparen, .num false 0, .rparen] =
        .ok (.call (.name "sin") [.num false 0]) from rfl,
      evalR_sin_rad, hval]
    exact formatR_small 0 (by norm_num)

/-- **C6.**  Whenever evaluation produces a numeric result of absolute
value strictly below `1e-10`, `evaluate` normalises it to exactly `0`
before formatting and returns `"0"` (a float is flushed by the near-zero
branch; an integer of absolute value below `1e-10` is already `0`); in
particular, in degree mode `evaluate("sin(180)")` formats to `"0"`. -/
theorem evaluate_near_zero :
    (∀ mode s q, s ≠ "" → pyRun mode s = .ok (.ok (.vfloat q)) →
      |q| < 1 / 10 ^ 10 → evaluate mode s = some "0") ∧
    (∀ mode s n, s ≠ "" → pyRun mode s = .ok (.ok (.vint n)) →
      |(n : ℚ)| < 1 / 10 ^ 10 → evaluate mode s = some "0") ∧
    evaluateR .deg "sin(180)" = some "0" := by
  refine ⟨fun mode s q hs h hq => ?_, fun mode s n hs h hn => ?_, ?_⟩
  · unfold evaluate
    rw [if_neg hs, h]
    show some (if |q| < 1 / 10 ^ 10 then "0" else fmtG10 q) = some "0"
    rw [if_pos hq]
  · have hn0 : n = 0 := by
      by_contra hne
      have h1 : (1 : ℚ) ≤ |(n : ℚ)| := by
        rw [show |(n : ℚ)| = ((|n| : ℤ) : ℚ) by push_cast; ring]
        exact_mod_cast Int.one_le_abs hne
      have : (1 : ℚ) / 10 ^ 10 < 1 := by norm_num
      linarith
    subst hn0
    unfold evaluate
    rw [if_neg hs, h]
    rfl
  · have hval : Real.sin (((180 : ℚ).num : ℝ) * (π / 180)) = 0 := by
      rw [show (((180 : ℚ).num : ℝ)) * (π / 180) = π by
        rw [Rat.num_ofNat]
        push_cast
        ring]
      exact Real.sin_pi
    unfold evaluateR pyRunR
    rw [if_neg (by decide)]
    simp only [show lexPy (cleanChars "sin(180)") =
        .ok [.name "sin", .lparen, .num false 180, .rparen] from rfl,
      show pyParse [Tok.name "sin", .lparen, .num false 180, .rparen] =
        .ok (.call (.name "sin") [.num false 180]) from rfl,
      evalR_sin_deg, hval]
    exact formatR_small 0 (by norm_num)

/-- Witness for `evaluate_near_zero` at the concrete input
`"0.00000000001"` (the value `1e-11`). -/
theorem evaluate_near_zero_witness :
    evaluate .deg "0.00000000001" = some "0" :=
  evaluate_near_zero.1 .deg "0.00000000001" (1 / 10 ^ 11) (by decide)
    (by with_unfolding_all rfl) (by rw [abs_of_pos] <;> norm_num)

/-! ### Negative base, fractional exponent: a complex result -/

theorem cpow_neg_base_not_real (x r : ℝ) (hx : x < 0)
    (hr : ¬∃ n : ℤ, r = (n : ℝ)) : (((x : ℂ)) ^ ((r : ℂ))).im ≠ 0 := by
  have hx0 : (x : ℂ) ≠ 0 := Complex.ofReal_ne_zero.mpr (ne_of_lt hx)
  rw [Complex.cpow_def_of_ne_zero hx0, Complex.exp_im]
  have him : (Complex.log (x : ℂ) * (r : ℂ)).im = π * r := by
    rw [Complex.mul_im]
    simp [Complex.log_im, Complex.arg_ofReal_of_neg hx]
  rw [him]
  intro hcontra
  rcases mul_eq_zero.mp hcontra with h1 | h2
  · exact Real.exp_ne_zero _ h1
  · rcases Real.sin_eq_zero_iff.mp h2 with ⟨n, hn⟩
    refine hr ⟨n, ?_⟩
    have hpin : π * (n : ℝ) = π * r := by linarith [hn]
    exact (mul_left_cancel₀ Real.pi_ne_zero hpin).symm

open Classical in
theorem powR_float_neg_base (b e : ℝ) (hb : b < 0) (he : ¬∃ n : ℤ, e = (n : ℝ)) :
    powR (.rfloat b) (.rfloat e) = .ok (.rcomplex ((b : ℂ) ^ (e : ℂ))) := by
  show (if h : ∃ n : ℤ, e = (n : ℝ) then
      if b = 0 ∧ h.choose < 0 then RRes.err .zeroDiv
      else .ok (.rfloat (b ^ h.choose))
    else if 0 < b then .ok (.rfloat (b ^ e))
    else if b = 0 then
      if 0 < e then .ok (.rfloat 0) else .err .zeroDiv
    else .ok (.rcomplex ((b : ℂ) ^ (e : ℂ)))) =
    .ok (.rcomplex ((b : ℂ) ^ (e : ℂ)))
  rw [dif_neg he, if_neg (lt_asymm hb), if_neg (ne_of_lt hb)]

open Classical in
theorem powR_int_neg_base (m : ℤ) (e : ℝ) (hm : ((m : ℝ)) < 0)
    (he : ¬∃ n : ℤ, e = (n : ℝ)) :
    powR (.rint m) (.rfloat e) = .ok (.rcomplex (((m : ℝ) : ℂ) ^ (e : ℂ))) := by
  show (if h : ∃ n : ℤ, e = (n : ℝ) then
      if (m : ℝ) = 0 ∧ h.choose < 0 then RRes.err .zeroDiv
      else .ok (.rfloat ((m : ℝ) ^ h.choose))
    else if 0 < (m : ℝ) then .ok (.rfloat ((m : ℝ) ^ e))
    else if (m : ℝ) = 0 then
      if 0 < e then .ok (.rfloat 0) else .err .zeroDiv
    else .ok (.rcomplex (((m : ℝ) : ℂ) ^ (e : ℂ)))) =
    .ok (.rcomplex (((m : ℝ) : ℂ) ^ (e : ℂ)))
  rw [dif_neg he, if_neg (lt_asymm hm), if_neg (ne_of_lt hm)]

theorem half_real_not_int : ¬∃ n : ℤ, ((1 : ℝ) / 2) = (n : ℝ) := by
  rintro ⟨n, hn⟩
  have h1 : (1 : ℝ) = 2 * (n : ℝ) := by linarith
  have h2 : (1 : ℤ) = 2 * n := by exact_mod_cast h1
  omega

theorem half_rat_real_not_int : ¬∃ n : ℤ, (((1 / 2 : ℚ) : ℝ)) = (n : ℝ) := by
  rintro ⟨n, hn⟩
  refine half_real_not_int ⟨n, ?_⟩
  rw [← hn]
  norm_num

/-- **C8, counterexample.**  `evaluate("(0-2)^0.5")` does not report a
domain error: the host's power of a negative base with a fractional
exponent is a complex number, so the run succeeds with the complex value
`(-2)^(1/2)`, whose imaginary part is nonzero — the displayed string is the
stringified complex, not `"Error"`. -/
theorem evaluate_neg_pow_counterexample :
    pyRunR .deg "(0-2)^0.5" = .ok (.ok (.rcomplex ((-2 : ℂ) ^ ((1 / 2 : ℝ) : ℂ)))) ∧
    ((-2 : ℂ) ^ ((1 / 2 : ℝ) : ℂ)).im ≠ 0 := by
  constructor
  · unfold pyRunR
    simp only [show lexPy (cleanChars "(0-2)^0.5") =
        .ok [.lparen, .num false 0, .minus, .num false 2, .rparen, .pow,
          .num true (1 / 2)] by with_unfolding_all rfl,
      show pyParse [Tok.lparen, .num false 0, .minus, .num false 2, .rparen,
          .pow, .num true (1 / 2)] =
        .ok (.pow (.sub (.num false 0) (.num false 2)) (.num true (1 / 2)))
        from rfl]
    have hsub : evalR .deg (.sub (.num false 0) (.num false 2)) =
        .ok (.rint (-2)) := by
      show RRes.ok (.rint ((0 : ℚ).num - (2 : ℚ).num)) = .ok (.rint (-2))
      norm_num
    have hpow : evalR .deg (.pow (.sub (.num false 0) (.num false 2))
        (.num true (1 / 2))) =
        powR (.rint (-2)) (.rfloat ((1 / 2 : ℚ) : ℝ)) := by
      show (evalR .deg (.sub (.num false 0) (.num false 2))).bind
          (fun x => (RRes.ok (.rfloat ((1 / 2 : ℚ) : ℝ))).bind
            fun y => powR x y) = _
      rw [hsub]
      rfl
    rw [hpow, powR_int_neg_base (-2) _ (by norm_num) half_rat_real_not_int]
    have hc1 : (((-2 : ℤ) : ℝ) : ℂ) = (-2 : ℂ) := by push_cast; ring
    have hc2 : ((((1 / 2 : ℚ) : ℝ)) : ℂ) = (((1 / 2 : ℝ)) : ℂ) := by push_cast; ring
    rw [hc1, hc2]
  · have := cpow_neg_base_not_real (-2) (1 / 2) (by norm_num) half_real_not_int
    simpa using this

/-- **C8, amended.**  For a base that evaluates to a negative number and an
exponent that is not an integer, the power succeeds with a complex value of
nonzero imaginary part (the host's Python-3 semantics) — it is not reported
as a domain error; in particular `(0-2)^0.5` evaluates to the complex
number `(-2)^(1/2)`. -/
theorem neg_base_fractional_pow_complex :
    ∀ b e : ℝ, b < 0 → (¬∃ n : ℤ, e = (n : ℝ)) →
      powR (.rfloat b) (.rfloat e) = .ok (.rcomplex ((b : ℂ) ^ (e : ℂ))) ∧
      ((b : ℂ) ^ (e : ℂ)).im ≠ 0 :=
  fun b e hb he => ⟨powR_float_neg_base b e hb he, cpow_neg_base_not_real b e hb he⟩

/-- Witness for `neg_base_fractional_pow_complex` at the concrete input
`(-2) ** 0.5`. -/
theorem neg_base_fractional_pow_complex_witness :
    powR (.rfloat (-2)) (.rfloat (1 / 2)) =
      .ok (.rcomplex (((-2 : ℝ) : ℂ) ^ (((1 / 2 : ℝ)) : ℂ))) ∧
    ((((-2 : ℝ)) : ℂ) ^ (((1 / 2 : ℝ)) : ℂ)).im ≠ 0 :=
  neg_base_fractional_pow_complex (-2) (1 / 2) (by norm_num) half_real_not_int

/-! ### Shape facts about the specification parsers

A completed specification `power` (and hence `unary`) never leaves a `^`
at the head of its remainder — it would have consumed it — so the
`("^" unary)*` tail of a `power` can loop at most once, which is what makes
it agree with the host's `power: primary ["**" u_expr]`. -/

theorem specPowStep_head (f : ℕ) :
    ∀ toks es rest, specPowStep f toks = .ok (es, rest) →
      rest.head? ≠ some Tok.pow := by
  induction f with
  | zero =>
    intro toks es rest h
    exact absurd h (by simp [specPowStep])
  | succ f ih =>
    intro toks es rest h
    simp only [specPowStep] at h
    cases h1 : specUnary f toks with
    | error e => rw [h1] at h; exact absurd h (by simp)
    | ok p =>
      obtain ⟨a, rest2⟩ := p
      simp only [h1] at h
      by_cases hp : rest2.head? = some Tok.pow
      · rw [if_pos hp] at h
        cases h2 : specPowStep f rest2.tail with
        | error e => rw [h2] at h; exact absurd h (by simp)
        | ok p2 =>
          obtain ⟨as, rest3⟩ := p2
          simp only [h2] at h
          rw [Except.ok.injEq, Prod.mk.injEq] at h
          rw [← h.2]
          exact ih rest2.tail as rest3 h2
      · rw [if_neg hp] at h
        rw [Except.ok.injEq, Prod.mk.injEq] at h
        rw [← h.2]
        exact hp

theorem specPower_head_pow (f : ℕ) (toks : List Tok) (a : Ast) (rest : List Tok)
    (h : specPower f toks = .ok (a, rest)) : rest.head? ≠ some Tok.pow := by
  match f with
  | 0 => exact absurd h (by simp [specPower])
  | f + 1 =>
    simp only [specPower] at h
    cases h1 : specPrimary f toks with
    | error e => rw [h1] at h; exact absurd h (by simp)
    | ok p =>
      obtain ⟨p1, rest1⟩ := p
      simp only [h1] at h
      by_cases hp : rest1.head? = some Tok.pow
      · rw [if_pos hp] at h
        cases h2 : specPowStep f rest1.tail with
        | error e => rw [h2] at h; exact absurd h (by simp)
        | ok p2 =>
          obtain ⟨es, rest2⟩ := p2
          simp only [h2] at h
          rw [Except.ok.injEq, Prod.mk.injEq] at h
          rw [← h.2]
          exact specPowStep_head f rest1.tail es rest2 h2
      · rw [if_neg hp] at h
        rw [Except.ok.injEq, Prod.mk.injEq] at h
        rw [← h.2]
        exact hp

theorem specUnary_head_pow (f : ℕ) :
    ∀ toks a rest, specUnary f toks = .ok (a, rest) →
      rest.head? ≠ some Tok.pow := by
  induction f with
  | zero => intro toks a rest h; exact absurd h (by simp [specUnary])
  | succ f ih =>
    intro toks a rest h
    match toks, h with
    | Tok.minus :: rest0, h =>
      simp only [specUnary] at h
      cases h1 : specUnary f rest0 with
      | error e => rw [h1] at h; exact absurd h (by simp)
      | ok p =>
        obtain ⟨a0, rest2⟩ := p
        simp only [h1] at h
        rw [Except.ok.injEq, Prod.mk.injEq] at h
        rw [← h.2]
        exact ih rest0 a0 rest2 h1
    | [], h =>
      exact specPower_head_pow f [] a rest (by simpa [specUnary] using h)
    | Tok.num b q :: ts, h =>
      exact specPower_head_pow f _ a rest (by simpa [specUnary] using h)
    | Tok.name s :: ts, h =>
      exact specPower_head_pow f _ a rest (by simpa [specUnary] using h)
    | Tok.plus :: ts, h =>
      exact specPower_head_pow f _ a rest (by simpa [specUnary] using h)
    | Tok.star :: ts, h =>
      exact specPower_head_pow f _ a rest (by simpa [specUnary] using h)
    | Tok.slash :: ts, h =>
      exact specPower_head_pow f _ a rest (by simpa [specUnary] using h)
    | Tok.percent :: ts, h =>
      exact specPower_head_pow f _ a rest (by simpa [specUnary] using h)
    | Tok.pow :: ts, h =>
      exact specPower_head_pow f _ a rest (by simpa [specUnary] using h)
    | Tok.lparen :: ts, h =>
      exact specPower_head_pow f _ a rest (by simpa [specUnary] using h)
    | Tok.rparen :: ts, h =>
      exact specPower_head_pow f _ a rest (by simpa [specUnary] using h)
    | Tok.comma :: ts, h =>
      exact specPower_head_pow f _ a rest (by simpa [specUnary] using h)

/-- A successful specification `expr` cannot begin at a `)` token. -/
theorem specExpr_head_ne_rparen (f : ℕ) (toks : List Tok) (a : Ast)
    (rest : List Tok) (h : specExpr f toks = .ok (a, rest)) :
    toks.head? ≠ some Tok.rparen := by
  match f with
  | 0 => exact absurd h (by simp [specExpr])
  | f1 + 1 =>
    simp only [specExpr] at h
    cases h1 : specTerm f1 toks with
    | error e => rw [h1] at h; exact absurd h (by simp)
    | ok p =>
      clear h
      obtain ⟨a1, r1⟩ := p
      match f1 with
      | 0 => exact absurd h1 (by simp [specTerm])
      | f2 + 1 =>
        simp only [specTerm] at h1
        cases h2 : specUnary f2 toks with
        | error e => rw [h2] at h1; exact absurd h1 (by simp)
        | ok p2 =>
          clear h1
          obtain ⟨a2, r2⟩ := p2
          match f2 with
          | 0 => exact absurd h2 (by simp [specUnary])
          | f3 + 1 =>
            match toks, h2 with
            | Tok.rparen :: ts, h2 =>
              exfalso
              have h2x : specPower f3 (Tok.rparen :: ts) = .ok (a2, r2) := by
                simpa [specUnary] using h2
              match f3 with
              | 0 => exact absurd h2x (by simp [specPower])
              | f4 + 1 =>
                simp only [specPower] at h2x
                cases h3 : specPrimary f4 (Tok.rparen :: ts) with
                | error e => rw [h3] at h2x; exact absurd h2x (by simp)
                | ok p3 =>
                  match f4 with
                  | 0 => exact absurd h3 (by simp [specPrimary])
                  | f5 + 1 => exact absurd h3 (by simp [specPrimary])
            | [], h2 => simp
            | Tok.num b q :: ts, h2 => simp
            | Tok.name s :: ts, h2 => simp
            | Tok.plus :: ts, h2 => simp
            | Tok.minus :: ts, h2 => simp
            | Tok.star :: ts, h2 => simp
            | Tok.slash :: ts, h2 => simp
            | Tok.percent :: ts, h2 => simp
            | Tok.pow :: ts, h2 => simp
            | Tok.lparen :: ts, h2 => simp
            | Tok.comma :: ts, h2 => simp

/-! ### The host parser refines the specification grammar on the
arithmetic fragment

On token lists drawn from the purely arithmetic fragment — no identifiers,
no `%` — every specification production that succeeds is reproduced by the
corresponding host production with the same tree and the same remainder,
provided the remainder does not begin with `(` (which only the host would
consume, as a call trailer).  The `specUnary` production owns the leading
`-`, so `specPrimary`/`specPower` are only ever reached with a non-`-`
head, and the statements carry that hypothesis. -/

theorem arithToks_tail {ts : List Tok} (h : arithToks ts = true) :
    arithToks ts.tail = true := by
  cases ts with
  | nil => rfl
  | cons t ts =>
    simp only [arithToks, List.all_cons, Bool.and_eq_true] at h
    exact h.2

theorem arithToks_head_ne_percent {ts : List Tok} (h : arithToks ts = true) :
    ts.head? ≠ some Tok.percent := by
  cases ts with
  | nil => simp
  | cons t ts =>
    simp only [arithToks, List.all_cons, Bool.and_eq_true] at h
    have h1 := h.1
    intro hc
    simp only [List.head?_cons, Option.some.injEq] at hc
    subst hc
    exact absurd h1 (by simp)

theorem specPower_ok_fuel {f : ℕ} {ts : List Tok} {a : Ast} {rest : List Tok}
    (h : specPower f ts = .ok (a, rest)) :
    ∃ g p r, f = g + 1 ∧ specPrimary g ts = .ok (p, r) := by
  match f, h with
  | 0, h => exact absurd h (by simp [specPower])
  | g + 1, h =>
    simp only [specPower] at h
    cases h1 : specPrimary g ts with
    | error e => rw [h1] at h; exact absurd h (by simp)
    | ok p =>
      obtain ⟨p1, r1⟩ := p
      exact ⟨g, p1, r1, rfl, h1⟩

theorem specPrimary_ok_head {f : ℕ} {ts : List Tok} {a : Ast} {rest : List Tok}
    (h : specPrimary f ts = .ok (a, rest)) :
    ts.head? ≠ some Tok.plus := by
  match f, h with
  | 0, h => exact absurd h (by simp [specPrimary])
  | g + 1, h =>
    match ts, h with
    | Tok.plus :: ts2, h => exact absurd h (by simp [specPrimary])
    | [], h => simp
    | Tok.num b q :: ts2, h => simp
    | Tok.name s :: ts2, h => simp
    | Tok.minus :: ts2, h => simp
    | Tok.star :: ts2, h => simp
    | Tok.slash :: ts2, h => simp
    | Tok.percent :: ts2, h => simp
    | Tok.pow :: ts2, h => simp
    | Tok.lparen :: ts2, h => simp
    | Tok.rparen :: ts2, h => simp
    | Tok.comma :: ts2, h => simp

/-- A successful `("^" unary)*` tail holds exactly one exponent, because a
completed `unary` never leaves `^` at the head of its remainder. -/
theorem specPowStep_ok_inv {f : ℕ} {ts : List Tok} {es : List Ast}
    {rest : List Tok} (h : specPowStep f ts = .ok (es, rest)) :
    ∃ g u, f = g + 1 ∧ specUnary g ts = .ok (u, rest) ∧ es = [u] := by
  match f, h with
  | 0, h => exact absurd h (by simp [specPowStep])
  | g + 1, h =>
    simp only [specPowStep] at h
    cases h1 : specUnary g ts with
    | error e => rw [h1] at h; exact absurd h (by simp)
    | ok p =>
      obtain ⟨u, r2⟩ := p
      simp only [h1] at h
      rw [if_neg (specUnary_head_pow g ts u r2 h1)] at h
      rw [Except.ok.injEq, Prod.mk.injEq] at h
      exact ⟨g, u, rfl, h.2 ▸ h1, h.1.symm⟩

/-- On arithmetic-only token lists, every specification production that
succeeds is reproduced by the corresponding host production, with the same
tree and remainder, whenever the remainder does not begin with `(`.  The
conjunction runs over `primary`, `power`, `unary`, the `term` loop,
`term`, the `expr` loop and `expr`, by strong induction on the fuel. -/
theorem spec_refines_host : ∀ f : ℕ,
    (∀ ts a rest, arithToks ts = true → ts.head? ≠ some Tok.minus →
      specPrimary f ts = .ok (a, rest) →
      arithToks rest = true ∧
        (rest.head? ≠ some Tok.lparen → pyPrimary f ts = .ok (a, rest))) ∧
    (∀ ts a rest, arithToks ts = true → ts.head? ≠ some Tok.minus →
      specPower f ts = .ok (a, rest) →
      arithToks rest = true ∧
        (rest.head? ≠ some Tok.lparen → pyPower f ts = .ok (a, rest))) ∧
    (∀ ts a rest, arithToks ts = true →
      specUnary f ts = .ok (a, rest) →
      arithToks rest = true ∧
        (rest.head? ≠ some Tok.lparen → pyUnary f ts = .ok (a, rest))) ∧
    (∀ ts acc a rest, arithToks ts = true →
      (ts.head? = some Tok.star ∨ ts.head? = some Tok.slash) →
      specTermStep f acc ts = .ok (a, rest) →
      arithToks rest = true ∧
        (rest.head? ≠ some Tok.lparen → pyMulStep f acc ts = .ok (a, rest))) ∧
    (∀ ts a rest, arithToks ts = true →
      specTerm f ts = .ok (a, rest) →
      arithToks rest = true ∧
        (rest.head? ≠ some Tok.lparen → pyTerm f ts = .ok (a, rest))) ∧
    (∀ ts acc a rest, arithToks ts = true →
      (ts.head? = some Tok.plus ∨ ts.head? = some Tok.minus) →
      specExprStep f acc ts = .ok (a, rest) →
      arithToks rest = true ∧
        (rest.head? ≠ some Tok.lparen → pyAddStep f acc ts = .ok (a, rest))) ∧
    (∀ ts a rest, arithToks ts = true →
      specExpr f ts = .ok (a, rest) →
      arithToks rest = true ∧
        (rest.head? ≠ some Tok.lparen → pyExpr f ts = .ok (a, rest))) := by
  intro f
  induction f using Nat.strong_induction_on with
  | _ f ih =>
  cases f with
  | zero =>
    refine ⟨?_, ?_, ?_, ?_, ?_, ?_, ?_⟩
    · intro ts a rest _ _ h; exact absurd h (by simp [specPrimary])
    · intro ts a rest _ _ h; exact absurd h (by simp [specPower])
    · intro ts a rest _ h; exact absurd h (by simp [specUnary])
    · intro ts acc a rest _ _ h; exact absurd h (by simp [specTermStep])
    · intro ts a rest _ h; exact absurd h (by simp [specTerm])
    · intro ts acc a rest _ _ h; exact absurd h (by simp [specExprStep])
    · intro ts a rest _ h; exact absurd h (by simp [specExpr])
  | succ f =>
    have IH := ih f (Nat.lt_succ_self f)
    refine ⟨?_, ?_, ?_, ?_, ?_, ?_, ?_⟩
    -- primary
    · intro ts a rest hA hM h
      match ts, hA, hM, h with
      | Tok.num b q :: ts2, hA, hM, h =>
        simp only [specPrimary] at h
        rw [Except.ok.injEq, Prod.mk.injEq] at h
        obtain ⟨h1, h2⟩ := h
        subst h1; subst h2
        refine ⟨arithToks_tail hA, fun hlp => ?_⟩
        simp only [pyPrimary]
        rw [if_neg hlp]
      | Tok.name s :: ts2, hA, hM, h =>
        exact absurd hA (by simp [arithToks])
      | Tok.lparen :: ts2, hA, hM, h =>
        simp only [specPrimary] at h
        cases h1 : specExpr f ts2 with
        | error e => rw [h1] at h; exact absurd h (by simp)
        | ok p =>
          obtain ⟨a1, r2⟩ := p
          simp only [h1] at h
          by_cases hr : r2.head? = some Tok.rparen
          · rw [if_pos hr] at h
            rw [Except.ok.injEq, Prod.mk.injEq] at h
            obtain ⟨h2, h3⟩ := h
            subst h2; subst h3
            have hE := IH.2.2.2.2.2.2 ts2 a1 r2 (arithToks_tail hA) h1
            have hpy := hE.2 (by rw [hr]; simp)
            refine ⟨arithToks_tail hE.1, fun hlp => ?_⟩
            simp only [pyPrimary, hpy]
            rw [if_pos hr, if_neg hlp]
          · rw [if_neg hr] at h
            exact absurd h (by simp)
      | Tok.minus :: ts2, hA, hM, h =>
        exact absurd rfl hM
      | [], hA, hM, h => exact absurd h (by simp [specPrimary])
      | Tok.plus :: ts2, hA, hM, h => exact absurd h (by simp [specPrimary])
      | Tok.star :: ts2, hA, hM, h => exact absurd h (by simp [specPrimary])
      | Tok.slash :: ts2, hA, hM, h => exact absurd h (by simp [specPrimary])
      | Tok.percent :: ts2, hA, hM, h => exact absurd h (by simp [specPrimary])
      | Tok.pow :: ts2, hA, hM, h => exact absurd h (by simp [specPrimary])
      | Tok.rparen :: ts2, hA, hM, h => exact absurd h (by simp [specPrimary])
      | Tok.comma :: ts2, hA, hM, h => exact absurd h (by simp [specPrimary])
    -- power
    · intro ts a rest hA hM h
      simp only [specPower] at h
      cases h1 : specPrimary f ts with
      | error e => rw [h1] at h; exact absurd h (by simp)
      | ok p =>
        obtain ⟨p1, r1⟩ := p
        simp only [h1] at h
        have hP := IH.1 ts p1 r1 hA hM h1
        by_cases hp : r1.head? = some Tok.pow
        · rw [if_pos hp] at h
          cases h2 : specPowStep f r1.tail with
          | error e => rw [h2] at h; exact absurd h (by simp)
          | ok p2 =>
            obtain ⟨es, r2⟩ := p2
            simp only [h2] at h
            rw [Except.ok.injEq, Prod.mk.injEq] at h
            obtain ⟨h3, h4⟩ := h
            subst h4
            obtain ⟨g, u, hg, hU1, hes⟩ := specPowStep_ok_inv h2
            subst hes
            subst h3
            subst hg
            have hU := (ih g (by omega)).2.2.1 r1.tail u r2
              (arithToks_tail hP.1) hU1
            refine ⟨hU.1, fun hlp => ?_⟩
            have hpy1 := hP.2 (by rw [hp]; simp)
            simp only [pyPower, hpy1]
            rw [if_pos hp]
            simp only [pyPowExp, hU.2 hlp]
            rfl
        · rw [if_neg hp] at h
          rw [Except.ok.injEq, Prod.mk.injEq] at h
          obtain ⟨h3, h4⟩ := h
          subst h3; subst h4
          refine ⟨hP.1, fun hlp => ?_⟩
          simp only [pyPower, hP.2 hlp]
          rw [if_neg hp]
    -- unary
    · intro ts a rest hA h
      match ts, hA, h with
      | Tok.minus :: ts2, hA, h =>
        simp only [specUnary] at h
        cases h1 : specUnary f ts2 with
        | error e => rw [h1] at h; exact absurd h (by simp)
        | ok p =>
          obtain ⟨a0, r2⟩ := p
          simp only [h1] at h
          rw [Except.ok.injEq, Prod.mk.injEq] at h
          obtain ⟨h2, h3⟩ := h
          subst h2; subst h3
          have hU := IH.2.2.1 ts2 a0 r2 (arithToks_tail hA) h1
          refine ⟨hU.1, fun hlp => ?_⟩
          simp only [pyUnary, hU.2 hlp]
      | Tok.plus :: ts2, hA, h =>
        exfalso
        simp only [specUnary] at h
        obtain ⟨g, p, r, hg, h1⟩ := specPower_ok_fuel h
        exact absurd rfl (specPrimary_ok_head h1)
      | [], hA, h =>
        simp only [specUnary] at h
        have hPw := IH.2.1 [] a rest hA (by simp) h
        refine ⟨hPw.1, fun hlp => ?_⟩
        simp only [pyUnary]
        exact hPw.2 hlp
      | Tok.num b q :: ts2, hA, h =>
        simp only [specUnary] at h
        have hPw := IH.2.1 _ a rest hA (by simp) h
        refine ⟨hPw.1, fun hlp => ?_⟩
        simp only [pyUnary]
        exact hPw.2 hlp
      | Tok.name s2 :: ts2, hA, h =>
        simp only [specUnary] at h
        have hPw := IH.2.1 _ a rest hA (by simp) h
        refine ⟨hPw.1, fun hlp => ?_⟩
        simp only [pyUnary]
        exact hPw.2 hlp
      | Tok.star :: ts2, hA, h =>
        simp only [specUnary] at h
        have hPw := IH.2.1 _ a rest hA (by simp) h
        refine ⟨hPw.1, fun hlp => ?_⟩
        simp only [pyUnary]
        exact hPw.2 hlp
      | Tok.slash :: ts2, hA, h =>
        simp only [specUnary] at h
        have hPw := IH.2.1 _ a rest hA (by simp) h
        refine ⟨hPw.1, fun hlp => ?_⟩
        simp only [pyUnary]
        exact hPw.2 hlp
      | Tok.percent :: ts2, hA, h =>
        simp only [specUnary] at h
        have hPw := IH.2.1 _ a rest hA (by simp) h
        refine ⟨hPw.1, fun hlp => ?_⟩
        simp only [pyUnary]
        exact hPw.2 hlp
      | Tok.pow :: ts2, hA, h =>
        simp only [specUnary] at h
        have hPw := IH.2.1 _ a rest hA (by simp) h
        refine ⟨hPw.1, fun hlp => ?_⟩
        simp only [pyUnary]
        exact hPw.2 hlp
      | Tok.lparen :: ts2, hA, h =>
        simp only [specUnary] at h
        have hPw := IH.2.1 _ a rest hA (by simp) h
        refine ⟨hPw.1, fun hlp => ?_⟩
        simp only [pyUnary]
        exact hPw.2 hlp
      | Tok.rparen :: ts2, hA, h =>
        simp only [specUnary] at h
        have hPw := IH.2.1 _ a rest hA (by simp) h
        refine ⟨hPw.1, fun hlp => ?_⟩
        simp only [pyUnary]
        exact hPw.2 hlp
      | Tok.comma :: ts2, hA, h =>
        simp only [specUnary] at h
        have hPw := IH.2.1 _ a rest hA (by simp) h
        refine ⟨hPw.1, fun hlp => ?_⟩
        simp only [pyUnary]
        exact hPw.2 hlp
    -- term loop
    · intro ts acc a rest hA hop h
      simp only [specTermStep] at h
      cases h1 : specUnary f ts.tail with
      | error e => rw [h1] at h; exact absurd h (by simp)
      | ok p =>
        obtain ⟨b, r2⟩ := p
        simp only [h1] at h
        have hU := IH.2.2.1 ts.tail b r2 (arithToks_tail hA) h1
        have hacc : (if ts.head? = some Tok.star then Ast.mul acc b
            else Ast.div acc b) =
            (if ts.head? = some Tok.star then Ast.mul acc b
            else if ts.head? = some Tok.slash then Ast.div acc b
            else Ast.mod acc b) := by
          rcases hop with hop | hop <;> rw [hop] <;> simp
        by_cases hc : r2.head? = some Tok.star ∨ r2.head? = some Tok.slash
        · rw [if_pos hc] at h
          have hstep := IH.2.2.2.1 r2 _ a rest hU.1 hc h
          refine ⟨hstep.1, fun hlp => ?_⟩
          have hpyU := hU.2 (by rcases hc with hc | hc <;> rw [hc] <;> simp)
          simp only [pyMulStep, hpyU]
          rw [← hacc]
          rw [if_pos (by rcases hc with hc | hc <;> rw [hc] <;> simp)]
          exact hstep.2 hlp
        · rw [if_neg hc] at h
          rw [Except.ok.injEq, Prod.mk.injEq] at h
          obtain ⟨h2, h3⟩ := h
          subst h3
          refine ⟨hU.1, fun hlp => ?_⟩
          have hpyU := hU.2 hlp
          simp only [pyMulStep, hpyU]
          rw [← hacc, h2]
          rw [if_neg ?_]
          intro hc2
          rcases hc2 with hc2 | hc2 | hc2
          · exact hc (Or.inl hc2)
          · exact hc (Or.inr hc2)
          · exact arithToks_head_ne_percent hU.1 hc2
    -- term
    · intro ts a rest hA h
      simp only [specTerm] at h
      cases h1 : specUnary f ts with
      | error e => rw [h1] at h; exact absurd h (by simp)
      | ok p =>
        obtain ⟨a1, r1⟩ := p
        simp only [h1] at h
        have hU := IH.2.2.1 ts a1 r1 hA h1
        by_cases hc : r1.head? = some Tok.star ∨ r1.head? = some Tok.slash
        · rw [if_pos hc] at h
          have hstep := IH.2.2.2.1 r1 a1 a rest hU.1 hc h
          refine ⟨hstep.1, fun hlp => ?_⟩
          have hpyU := hU.2 (by rcases hc with hc | hc <;> rw [hc] <;> simp)
          simp only [pyTerm, hpyU]
          rw [if_pos (by rcases hc with hc | hc <;> rw [hc] <;> simp)]
          exact hstep.2 hlp
        · rw [if_neg hc] at h
          rw [Except.ok.injEq, Prod.mk.injEq] at h
          obtain ⟨h2, h3⟩ := h
          subst h2; subst h3
          refine ⟨hU.1, fun hlp => ?_⟩
          have hpyU := hU.2 hlp
          simp only [pyTerm, hpyU]
          rw [if_neg ?_]
          intro hc2
          rcases hc2 with hc2 | hc2 | hc2
          · exact hc (Or.inl hc2)
          · exact hc (Or.inr hc2)
          · exact arithToks_head_ne_percent hU.1 hc2
    -- expr loop
    · intro ts acc a rest hA hop h
      simp only [specExprStep] at h
      cases h1 : specTerm f ts.tail with
      | error e => rw [h1] at h; exact absurd h (by simp)
      | ok p =>
        obtain ⟨b, r2⟩ := p
        simp only [h1] at h
        have hT := IH.2.2.2.2.1 ts.tail b r2 (arithToks_tail hA) h1
        by_cases hc : r2.head? = some Tok.plus ∨ r2.head? = some Tok.minus
        · rw [if_pos hc] at h
          have hstep := IH.2.2.2.2.2.1 r2 _ a rest hT.1 hc h
          refine ⟨hstep.1, fun hlp => ?_⟩
          have hpyT := hT.2 (by rcases hc with hc | hc <;> rw [hc] <;> simp)
          simp only [pyAddStep, hpyT]
          rw [if_pos hc]
          exact hstep.2 hlp
        · rw [if_neg hc] at h
          rw [Except.ok.injEq, Prod.mk.injEq] at h
          obtain ⟨h2, h3⟩ := h
          subst h3
          refine ⟨hT.1, fun hlp => ?_⟩
          have hpyT := hT.2 hlp
          simp only [pyAddStep, hpyT]
          rw [h2]
          rw [if_neg hc]
    -- expr
    · intro ts a rest hA h
      simp only [specExpr] at h
      cases h1 : specTerm f ts with
      | error e => rw [h1] at h; exact absurd h (by simp)
      | ok p =>
        obtain ⟨a1, r1⟩ := p
        simp only [h1] at h
        have hT := IH.2.2.2.2.1 ts a1 r1 hA h1
        by_cases hc : r1.head? = some Tok.plus ∨ r1.head? = some Tok.minus
        · rw [if_pos hc] at h
          have hstep := IH.2.2.2.2.2.1 r1 a1 a rest hT.1 hc h
          refine ⟨hstep.1, fun hlp => ?_⟩
          have hpyT := hT.2 (by rcases hc with hc | hc <;> rw [hc] <;> simp)
          simp only [pyExpr, hpyT]
          rw [if_pos hc]
          exact hstep.2 hlp
        · rw [if_neg hc] at h
          rw [Except.ok.injEq, Prod.mk.injEq] at h
          obtain ⟨h2, h3⟩ := h
          subst h2; subst h3
          refine ⟨hT.1, fun hlp => ?_⟩
          have hpyT := hT.2 hlp
          simp only [pyExpr, hpyT]
          rw [if_neg hc]

/-- On the arithmetic fragment, a complete parse under the specification
grammar is reproduced verbatim by the host parser (both run with the same
fuel `parseFuel ts`). -/
theorem spec_to_py_parse {ts : List Tok} {a : Ast} (hA : arithToks ts = true)
    (h : specParse ts = .ok a) : pyParse ts = .ok a := by
  unfold specParse at h
  cases h1 : specExpr (parseFuel ts) ts with
  | error e => rw [h1] at h; exact absurd h (by simp)
  | ok p =>
    obtain ⟨a1, rest⟩ := p
    rw [h1] at h
    cases rest with
    | cons t rs => exact absurd h (by simp)
    | nil =>
      have hE := (spec_refines_host (parseFuel ts)).2.2.2.2.2.2 ts a1 [] hA h1
      have hpy := hE.2 (by simp)
      unfold pyParse
      rw [hpy]
      simpa using h

/-- **C1 (counterexample).**  `"01"` is a well-formed arithmetic
expression of the claimed grammar — the specification tokenizer reads the
number `01` ("one or more digits") and the pipeline under the
specification grammar evaluates it to `1` — yet `evaluate` returns
`"Error"`: the host compile rejects an integer literal with a leading
zero. -/
theorem arithmetic_leading_zero_counterexample :
    specRun AngleMode.deg "01" = .ok (.ok (.vint 1)) ∧
    formatNum (.vint 1) = "1" ∧
    evaluate AngleMode.deg "01" = some "Error" := by
  refine ⟨?_, ?_, ?_⟩ <;> with_unfolding_all rfl

/-- **C1 (amended).**  For every well-formed arithmetic expression over
number literals, `+`, `-`, `*`, `/`, `^`, unary minus and parentheses —
an input whose token list is arithmetic-only, which the host tokenizer
lexes exactly as the specification's tokenizer does (this exempts integer
literals with leading zeros, which only the host rejects), and which the
specification grammar parses and evaluates to a value `v` — `evaluate`
returns exactly `v`, formatted.  Operator precedence and associativity are
therefore those of the specification grammar: `^` binds tightest and is
right-associative, then unary minus, then `*` and `/` left-associative,
then `+` and `-` left-associative.  The claim's example
`evaluate "2+3*4" = "14"` is the witness below. -/
theorem arithmetic_precedence_correct (mode : AngleMode) (s : String)
    (ts : List Tok) (v : PyVal)
    (hne : s ≠ "")
    (hlexS : lexSpec (cleanChars s) = .ok ts)
    (hlexP : lexPy (cleanChars s) = .ok ts)
    (hA : arithToks ts = true)
    (hrun : specRun mode s = .ok (.ok v)) :
    evaluate mode s = some (formatNum v) := by
  simp only [specRun, hlexS] at hrun
  cases hp : specParse ts with
  | error e => rw [hp] at hrun; exact absurd hrun (by simp)
  | ok ast =>
    simp only [hp] at hrun
    rw [Except.ok.injEq] at hrun
    have hpyp := spec_to_py_parse hA hp
    simp only [evaluate, if_neg hne, pyRun, hlexP, hpyp, hrun]

/-- Witness for `arithmetic_precedence_correct` at the claim's own
example, `evaluate("2+3*4") = "14"`. -/
theorem arithmetic_precedence_correct_witness :
    evaluate AngleMode.deg "2+3*4" = some "14" := by
  have h := arithmetic_precedence_correct AngleMode.deg "2+3*4"
    [Tok.num false 2, Tok.plus, Tok.num false 3, Tok.star, Tok.num false 4]
    (PyVal.vint 14) (by decide) (by with_unfolding_all rfl)
    (by with_unfolding_all rfl) rfl (by with_unfolding_all rfl)
  rw [h]
  with_unfolding_all rfl

end CalcPro
